import Mathlib

/-!
# ashirt: the embedded database layer (`src/db/databaseconnection.cpp`)

A shallow embedding of the schema-migration engine, of the evidence filter
query builder, of the tag, server and system-migration operations of
`DatabaseConnection` and of the tag stream operators of `models/type_streams.h`,
followed by the properties proved about them.

Conventions of the embedding:

* a `QString` is the list of its characters;
* a `QStringList` / `std::vector` is a `List`;
* a function that throws returns its error as a value;
* the database is explicit state (`Db`); whether a statement handed to
  `executeQuery` succeeds is decided by the environment (`World`), because the
  SQL inside migration scripts is not interpreted.
-/

namespace Ashirt

/-! ## Strings -/

/-- A `QString`, as the list of its characters. -/
abbrev QString := List Char

/-- `QChar::isSpace`: the ASCII white space characters U+0009..U+000D and U+0020,
U+0085, U+00A0 and the characters of the Unicode separator categories. -/
def isSpace (c : Char) : Bool :=
  let n := c.toNat
  n == 0x20 || (0x09 ≤ n && n ≤ 0x0d) || n == 0x85 || n == 0xa0 || n == 0x1680 ||
    (0x2000 ≤ n && n ≤ 0x200a) || n == 0x2028 || n == 0x2029 || n == 0x202f ||
    n == 0x205f || n == 0x3000

/-- `QString::trimmed`: white space removed from both ends. -/
def trimmed (s : QString) : QString :=
  ((s.dropWhile isSpace).reverse.dropWhile isSpace).reverse

/-- `QString::toLower`, on the ASCII letters (other characters are left as they are). -/
def toLower (s : QString) : QString := s.map Char.toLower

/-- `QString::right(n)`: the last `n` characters, the whole string when it is shorter. -/
def right (n : Nat) (s : QString) : QString := s.drop (s.length - n)

/-- The scanning loop of `QString::split(sep)` for a non-empty separator, keeping empty
parts. `skip` counts the characters of a separator just matched that are still to be
passed over; `acc` holds the current part, reversed. -/
def splitGo (sep : QString) : QString → Nat → QString → List QString
  | [], _, acc => [acc.reverse]
  | _ :: cs, skip + 1, acc => splitGo sep cs skip acc
  | c :: cs, 0, acc =>
    if sep.isPrefixOf (c :: cs) then acc.reverse :: splitGo sep cs (sep.length - 1) []
    else splitGo sep cs 0 (c :: acc)

/-- `QString::split(sep)` (non-empty `sep`, `Qt::KeepEmptyParts`). -/
def split (s sep : QString) : List QString := splitGo sep s 0 []

/-! ## Migration engine -/

/-- The errors `migrateDB` can throw. -/
inductive MigrateError where
  /-- `BadDatabaseStateError` -/
  | badDatabaseState
  /-- `FileError::mkError("Error reading migration file", name, ..)` -/
  | fileError (name : QString)
  /-- the `QSqlError` thrown by `executeQuery` for the statement `stmt` -/
  | sqlError (stmt : QString)
  deriving DecidableEq, Repr

/-- `QStringList::indexOf`: the position of the first occurrence, `-1` when there is none. -/
def indexOf (l : List QString) (x : QString) : Int :=
  match l with
  | [] => -1
  | y :: ys =>
    if y = x then 0
    else
      let i := indexOf ys x
      if i = -1 then -1 else i + 1

/-- `QStringList::removeAt`. -/
def removeAt (l : List QString) (i : Int) : List QString :=
  if i < 0 then l else l.eraseIdx i.toNat

/-- The file extension a migration script must have. -/
def sqlSuffix : QString := ".sql".toList

/-- The loop "compare the two list to find gaps" of `getUnappliedMigrations`, as a function
of the files still to visit and of the two lists it updates; it returns
`(appliedMigrations, migrationsToApply)`. -/
def compareLoop : List QString → List QString → List QString → List QString × List QString
  | [], appliedMigrations, migrationsToApply => (appliedMigrations, migrationsToApply)
  | possibleMigration :: rest, appliedMigrations, migrationsToApply =>
    if right 4 possibleMigration ≠ sqlSuffix then
      compareLoop rest appliedMigrations migrationsToApply
    else
      let foundIndex := indexOf appliedMigrations possibleMigration
      if foundIndex = -1 then
        compareLoop rest appliedMigrations (migrationsToApply ++ [possibleMigration])
      else
        compareLoop rest (removeAt appliedMigrations foundIndex) migrationsToApply

/-- `DatabaseConnection::getUnappliedMigrations`. `allMigrations` is what
`migrationsDir.entryList(QDir::Files, QDir::Name)` returns; `dbMigrations` is the outcome of
`SELECT migration_name FROM migrations`: `some rows` when `exec()` returns true, `none` when
it returns false (the rows are then not read and `appliedMigrations` stays empty). -/
def getUnappliedMigrations (allMigrations : List QString)
    (dbMigrations : Option (List QString)) : Except MigrateError (List QString) :=
  let appliedMigrations :=
    match dbMigrations with
    | some rows => rows
    | none => []
  let r := compareLoop allMigrations appliedMigrations []
  if r.1 ≠ [] then .error .badDatabaseState else .ok r.2

/-- The marker line that opens the "up" section. -/
def upMarker : QString := "-- +migrate up".toList

/-- The marker line that closes the "up" section. -/
def downMarker : QString := "-- +migrate down".toList

/-- The test `line.trimmed().toLower() == "-- +migrate up"`. -/
def isUpMarker (line : QString) : Bool := toLower (trimmed line) == upMarker

/-- The test `line.trimmed().toLower() == "-- +migrate down"`. -/
def isDownMarker (line : QString) : Bool := toLower (trimmed line) == downMarker

/-- The `for` loop over the lines in `extractMigrateUpContent`, as a function of the lines
still to visit, the flag `copying` and the text `upContent` gathered so far; it returns the
final `upContent`. -/
def upLoop : List QString → Bool → QString → QString
  | [], _, upContent => upContent
  | line :: rest, copying, upContent =>
    if isUpMarker line then upLoop rest true upContent
    else if isDownMarker line then
      if copying then upContent  -- break
      else upLoop rest false upContent
    else if copying then upLoop rest copying (upContent ++ (line ++ "\n".toList))
    else upLoop rest copying upContent

/-- The text `upContent` that `extractMigrateUpContent` has gathered when its loop ends. -/
def upContentOf (allContent : QString) : QString :=
  upLoop (split allContent "\n".toList) false []

/-- The separator between two statements of a script. -/
def statementSplitter : QString := "\n;".toList

/-- `DatabaseConnection::extractMigrateUpContent`. -/
def extractMigrateUpContent (allContent : QString) : List QString :=
  split (upContentOf allContent) statementSplitter

/-- The database, as far as the migration engine sees it. -/
structure Db where
  /-- the `migration_name` column of the rows of table `migrations`, oldest row first -/
  migrations : List QString
  /-- the script statements executed so far, in order -/
  executed : List QString
  deriving DecidableEq, Repr

/-- What the migration engine does not control: the embedded script files and whether
the database accepts a statement. -/
structure World where
  /-- the names `QDir(":/migrations").entryList(QDir::Files, QDir::Name)` returns -/
  allMigrations : List QString
  /-- the content of `":/migrations/" + name`, `none` when the file cannot be opened -/
  readFile : QString → Option QString
  /-- whether `SELECT migration_name FROM migrations` executes in this state -/
  selectOk : Db → Bool
  /-- whether `executeQuery(&db, stmt)` succeeds for a script statement in this state -/
  stmtOk : Db → QString → Bool
  /-- whether the `INSERT INTO migrations` for this script name succeeds in this state -/
  insertOk : Db → QString → Bool

/-- Where a run of the engine ends: the database it leaves and the exception thrown,
if any. -/
structure Outcome where
  db : Db
  error : Option MigrateError
  deriving DecidableEq, Repr

/-- The statement that records a script in the history. -/
def insertHistoryStmt : QString :=
  "INSERT INTO migrations (migration_name, applied_at) VALUES (?, datetime('now'))".toList

/-- The inner loop of `migrateDB`: `for (QString stmt : upScript)`. A statement that
succeeds is appended to the trace `executed`; one that fails ends the run with its error. -/
def runStatements (w : World) : List QString → Db → Outcome
  | [], db => ⟨db, none⟩
  | stmt :: rest, db =>
    if trimmed stmt = [] then runStatements w rest db  -- skip blank statements
    else if w.stmtOk db stmt then
      runStatements w rest { db with executed := db.executed ++ [stmt] }
    else ⟨db, some (.sqlError stmt)⟩

/-- The outer loop of `migrateDB`: `for (const QString &newMigration : migrationsToApply)`. -/
def applyMigrations (w : World) : List QString → Db → Outcome
  | [], db => ⟨db, none⟩
  | newMigration :: rest, db =>
    match w.readFile newMigration with
    | none => ⟨db, some (.fileError newMigration)⟩
    | some content =>
      let r := runStatements w (extractMigrateUpContent content) db
      match r.error with
      | some e => ⟨r.db, some e⟩
      | none =>
        if w.insertOk r.db newMigration then
          applyMigrations w rest { r.db with migrations := r.db.migrations ++ [newMigration] }
        else ⟨r.db, some (.sqlError insertHistoryStmt)⟩

/-- The rows `getUnappliedMigrations` reads from the database in state `db`. -/
def readHistory (w : World) (db : Db) : Option (List QString) :=
  if w.selectOk db then some db.migrations else none

/-- `DatabaseConnection::migrateDB`. -/
def migrateDB (w : World) (db : Db) : Outcome :=
  match getUnappliedMigrations w.allMigrations (readHistory w db) with
  | .error e => ⟨db, some e⟩
  | .ok migrationsToApply => applyMigrations w migrationsToApply db

/-- A statement `migrateDB` does not skip: `stmt.trimmed() == ""` is false. -/
def nonBlank (stmt : QString) : Bool := decide (trimmed stmt ≠ [])

/-- The statements of the script file `name` that `migrateDB` hands to `executeQuery`: the
parts of its "up" section that are not blank (none when the file cannot be read). -/
def scriptStatements (w : World) (name : QString) : List QString :=
  match w.readFile name with
  | none => []
  | some content => (extractMigrateUpContent content).filter nonBlank

/-- A world with one script and one other file, in which every statement succeeds. -/
def sampleWorld : World where
  allMigrations := ["1.sql".toList, "notes.txt".toList]
  readFile := fun _ => some "-- +migrate up\nCREATE TABLE t(x);".toList
  selectOk := fun _ => true
  stmtOk := fun _ _ => true
  insertOk := fun _ _ => true

/-- The lines of the "up" section of a script, following the specification: the lines
after the first line that is an up marker, up to the next line that is a down marker or
to the end of the file, marker lines left out. -/
def upSectionLines (lines : List QString) : List QString :=
  ((((lines.dropWhile (fun line => !isUpMarker line)).drop 1).takeWhile
    (fun line => !isDownMarker line)).filter (fun line => !isUpMarker line))

/-- The script of the specification's example. -/
def exampleScript : QString :=
  "-- +migrate up\nCREATE TABLE t(x);\n;\n-- +migrate down\nDROP TABLE t;".toList

/-! ## Evidence filter query -/

/-- Modelled from the spec: the tri-state flag `Tri` of
`forms/evidence_filter/evidencefilter.h` (not among the sources): require-true (`Yes`),
require-false (`No`) or unconstrained (`Any`). -/
inductive Tri where
  | Any
  | Yes
  | No
  deriving DecidableEq, Repr

/-- A `QDate`: `none` is the invalid (null) date, `some d` the valid date whose day number
is `d`. Day numbers are unbounded integers. -/
abbrev QDate := Option Int

/-- `QDate::isValid`. -/
def QDate.isValid (d : QDate) : Bool := d.isSome

/-- `QDate::addDays`: the date `ndays` later; an invalid date stays invalid. -/
def QDate.addDays (d : QDate) (ndays : Int) : QDate := d.map (fun jd => jd + ndays)

/-- Modelled from the spec: the value object `EvidenceFilters` of
`forms/evidence_filter/evidencefilter.h` (not among the sources), with the fields
`buildGetEvidenceWithFiltersQuery` reads: two tri-state flags, two strings that are empty
when the filter is absent, and the two ends of the date range, invalid when absent. -/
structure EvidenceFilters where
  hasError : Tri
  submitted : Tri
  operationSlug : QString
  contentType : QString
  startDate : QDate
  endDate : QDate
  deriving DecidableEq, Repr

/-- The `QVariant` values the query builder binds. -/
inductive QVariant where
  | string (s : QString)
  | date (d : QDate)
  deriving DecidableEq, Repr

/-- `DBQuery`: a statement text and its bound arguments. -/
structure DBQuery where
  query : QString
  values : List QVariant
  deriving DecidableEq, Repr

/-- The statement `buildGetEvidenceWithFiltersQuery` starts from. -/
def baseSelect : QString :=
  "SELECT".toList ++
    " id, path, server_uuid, operation_slug, content_type, description, error, recorded_date, upload_date".toList ++
    " FROM evidence".toList

/-- The last step of `buildGetEvidenceWithFiltersQuery`: `" WHERE " + parts.at(0)` and then
`" AND " + parts.at(i)` for the other parts, nothing when there is no part. -/
def appendParts (query : QString) (parts : List QString) : QString :=
  match parts with
  | [] => query
  | first :: others =>
    others.foldl (fun q part => q ++ (" AND ".toList ++ part)) (query ++ (" WHERE ".toList ++ first))

/-- `DatabaseConnection::buildGetEvidenceWithFiltersQuery`. The pair `s` is
`(parts, values)`; each step is one `if` of the source. -/
def buildGetEvidenceWithFiltersQuery (filters : EvidenceFilters) : DBQuery :=
  let query := baseSelect
  let s0 : List QString × List QVariant := ([], [])
  let s1 :=
    if filters.hasError ≠ Tri.Any then
      (s0.1 ++ [" error LIKE ? ".toList],
        s0.2 ++ [QVariant.string (if filters.hasError = Tri.Yes then "_%".toList else "".toList)])
    else s0
  let s2 :=
    if filters.submitted ≠ Tri.Any then
      (s1.1 ++ [if filters.submitted = Tri.Yes then " upload_date IS NOT NULL ".toList
                else " upload_date IS NULL ".toList], s1.2)
    else s1
  let s3 :=
    if filters.operationSlug ≠ [] then
      (s2.1 ++ [" operation_slug = ? ".toList], s2.2 ++ [QVariant.string filters.operationSlug])
    else s2
  let s4 :=
    if filters.contentType ≠ [] then
      (s3.1 ++ [" content_type = ? ".toList], s3.2 ++ [QVariant.string filters.contentType])
    else s3
  let s5 :=
    if filters.startDate.isValid then
      (s4.1 ++ [" recorded_date >= ? ".toList], s4.2 ++ [QVariant.date filters.startDate])
    else s4
  let s6 :=
    if filters.endDate.isValid then
      let realEndDate := filters.endDate.addDays 1
      (s5.1 ++ [" recorded_date < ? ".toList], s5.2 ++ [QVariant.date realEndDate])
    else s5
  ⟨appendParts query s6.1, s6.2⟩

/-- A condition of the WHERE clause together with the value that belongs to its
placeholder (`none` for a condition without placeholder). -/
structure Condition where
  text : QString
  value : Option QVariant
  deriving DecidableEq, Repr

/-- The conditions the specification lists for a filter, in its fixed order: has-error,
submitted, operation slug, content type, start date, end date; each with its own value. -/
def conditionsOf (f : EvidenceFilters) : List Condition :=
  (match f.hasError with
    | .Yes => [⟨" error LIKE ? ".toList, some (.string "_%".toList)⟩]
    | .No => [⟨" error LIKE ? ".toList, some (.string [])⟩]
    | .Any => []) ++
  (match f.submitted with
    | .Yes => [⟨" upload_date IS NOT NULL ".toList, none⟩]
    | .No => [⟨" upload_date IS NULL ".toList, none⟩]
    | .Any => []) ++
  (if f.operationSlug = [] then []
    else [⟨" operation_slug = ? ".toList, some (.string f.operationSlug)⟩]) ++
  (if f.contentType = [] then []
    else [⟨" content_type = ? ".toList, some (.string f.contentType)⟩]) ++
  (match f.startDate with
    | some d => [⟨" recorded_date >= ? ".toList, some (.date (some d))⟩]
    | none => []) ++
  (match f.endDate with
    | some d => [⟨" recorded_date < ? ".toList, some (.date (some (d + 1)))⟩]
    | none => [])

/-- The WHERE clause of the specification: nothing for no condition, otherwise the keyword
once and the conditions joined by `AND`. -/
def whereClause {α : Type} (kw sep : List α) (conds : List (List α)) : List α :=
  match conds with
  | [] => []
  | _ :: _ => kw ++ List.intercalate sep conds

/-- A character of a statement after binding: a character of the text, or the value bound
to the placeholder that stood there. -/
inductive Bound where
  | char (c : Char)
  | arg (v : QVariant)
  deriving DecidableEq, Repr

/-- Positional binding (`QSqlQuery::addBindValue`): the i-th `?` of the statement takes the
i-th bound value; a `?` left without value stays. -/
def bindValues : QString → List QVariant → List Bound
  | [], _ => []
  | c :: cs, vs =>
    if c = '?' then
      match vs with
      | v :: rest => .arg v :: bindValues cs rest
      | [] => .char c :: bindValues cs []
    else .char c :: bindValues cs vs

/-- No filter is active: both flags `Any`, both strings empty, both dates invalid. -/
def noFilter (f : EvidenceFilters) : Prop :=
  f.hasError = .Any ∧ f.submitted = .Any ∧ f.operationSlug = [] ∧ f.contentType = [] ∧
    f.startDate = none ∧ f.endDate = none


/-! ## Evaluation of the filter query

What the database does with the statement is not code of the repository; the definitions
below describe how SQLite evaluates the statements the builder produces. -/

/-- A row of table `evidence`, with the columns the WHERE conditions read. A nullable
column is an `Option`; `recordedDay` is the day number of `recorded_date` (a timestamp
compares to a date as its day does: it is not before midnight of its own day and it is
before midnight of every later day). -/
structure EvidenceRow where
  error : Option QString
  uploadDate : Option QString
  operationSlug : QString
  contentType : QString
  recordedDay : Int
  deriving DecidableEq, Repr

/-- SQL `text LIKE pattern`: `%` matches any run of characters, `_` any one character,
another character matches itself, ASCII letters without regard to case. -/
def likeMatch : QString → QString → Bool
  | [], text => text.isEmpty
  | p :: ps, text =>
    if p = '%' then text.tails.any (fun rest => likeMatch ps rest)
    else
      match text with
      | [] => false
      | c :: cs => (p == '_' || p.toLower == c.toLower) && likeMatch ps cs

/-- Whether a condition of the builder, with the value bound to its placeholder if it has
one, is true of a row. A comparison with NULL is not true. -/
def conditionHolds (text : QString) (arg : Option QVariant) (row : EvidenceRow) : Bool :=
  if text = " error LIKE ? ".toList then
    match arg, row.error with
    | some (.string pattern), some e => likeMatch pattern e
    | _, _ => false
  else if text = " upload_date IS NOT NULL ".toList then row.uploadDate.isSome
  else if text = " upload_date IS NULL ".toList then row.uploadDate.isNone
  else if text = " operation_slug = ? ".toList then
    match arg with
    | some (.string s) => row.operationSlug == s
    | _ => false
  else if text = " content_type = ? ".toList then
    match arg with
    | some (.string s) => row.contentType == s
    | _ => false
  else if text = " recorded_date >= ? ".toList then
    match arg with
    | some (.date (some d)) => decide (d ≤ row.recordedDay)
    | _ => false
  else if text = " recorded_date < ? ".toList then
    match arg with
    | some (.date (some d)) => decide (row.recordedDay < d)
    | _ => false
  else false

/-- Whether all the conditions joined by `AND` are true of a row; the bound values are
handed out in order, one to each condition that holds a placeholder. -/
def conditionsHold : List QString → List QVariant → EvidenceRow → Bool
  | [], _, _ => true
  | text :: rest, args, row =>
    if text.count '?' = 0 then conditionHolds text none row && conditionsHold rest args row
    else
      match args with
      | [] => false
      | v :: vs => conditionHolds text (some v) row && conditionsHold rest vs row

/-- The text that follows `lead` in `s`, when `s` starts with `lead`. -/
def dropLeading (lead s : QString) : Option QString :=
  if lead.isPrefixOf s then some (s.drop lead.length) else none

/-- The conditions of a statement of the builder: none for the bare SELECT, otherwise the
parts of the text after `WHERE` that `AND` separates. -/
def parseWhere (query : QString) : Option (List QString) :=
  match dropLeading baseSelect query with
  | none => none
  | some [] => some []
  | some rest =>
    match dropLeading " WHERE ".toList rest with
    | none => none
    | some body => some (split body " AND ".toList)

/-- The rows a statement of the builder selects from the table. -/
def selectEvidence (q : DBQuery) (table : List EvidenceRow) : Option (List EvidenceRow) :=
  (parseWhere q.query).map (fun conds => table.filter (conditionsHold conds q.values))

/-- `DatabaseConnection::getEvidenceWithFilters`, on a table given as the list of its
rows: the rows the built statement selects (`none` when the statement is rejected). -/
def getEvidenceWithFilters (table : List EvidenceRow) (filters : EvidenceFilters) :
    Option (List EvidenceRow) :=
  selectEvidence (buildGetEvidenceWithFiltersQuery filters) table

/-- The filter that constrains nothing. -/
def noFilters : EvidenceFilters := ⟨.Any, .Any, [], [], none, none⟩

/-- The two rows of the specification's example. -/
def exampleRows : List EvidenceRow :=
  [⟨some [], none, [], [], 0⟩, ⟨some "boom".toList, some "2021-01-01".toList, [], [], 0⟩]

/-- The number of filters present among operation slug, content type, start date and end
date. -/
def valueFilterCount (f : EvidenceFilters) : Nat :=
  (if f.operationSlug = [] then 0 else 1) + (if f.contentType = [] then 0 else 1) +
    (if f.startDate.isValid then 1 else 0) + (if f.endDate.isValid then 1 else 0)

/-- A script whose up section holds a line that begins with a semicolon and no line that
is a semicolon alone. -/
def leadingSemicolonScript : QString :=
  "-- +migrate up\nSELECT 1\n;SELECT 2".toList

/-! ## Evidence tags -/

/-- Modelled from the spec: `model::Tag` of `models/tag.h` (not among the sources): the
local identifier, the server-assigned tag identifier and the tag name. -/
structure Tag where
  id : Int
  serverTagId : Int
  tagName : QString
  deriving DecidableEq, Repr

/-- A row of table `tags`: local identifier `id`, and the columns `evidence_id`, `tag_id`
(the server-assigned identifier) and `name`. -/
structure TagRow where
  id : Int
  evidenceId : Int
  tagId : Int
  name : QString
  deriving DecidableEq, Repr

/-- A value as SQLite receives it for a placeholder of the DELETE of `setEvidenceTags`. -/
inductive SqlValue where
  /-- an integer -/
  | integer (n : Int)
  /-- the empty text `''` -/
  | emptyText
  deriving DecidableEq, Repr

/-- SQL `column = value` for an integer column: an integer equals the same integer and
never the empty text. -/
def SqlValue.equalsInteger (v : SqlValue) (n : Int) : Bool :=
  match v with
  | .integer m => n == m
  | .emptyText => false

/-- The value Qt's SQLite driver binds to a placeholder for a `QList<QVariant>`. A
placeholder takes one value, and a list variant is a type the driver has no case for: it
is bound as the text `QVariant::toString()` returns, and for a list that is the empty
string. -/
def boundList (_items : List Int) : SqlValue := .emptyText

/-- The verdict of the database on `tag_id IN (?)` with the placeholder bound to a list
of identifiers, with Qt's SQLite driver: the row's `tag_id` is compared with the one value
bound. -/
def driverInList (items : List Int) (tagId : Int) : Bool :=
  (boundList items).equalsInteger tagId

/-- `DELETE FROM tags WHERE tag_id NOT IN (?) AND evidence_id = ?` with the first
placeholder bound to the list `newTagIds` and the second to `evidenceID`: the rows that
remain. `inList` is the verdict of the database on `tag_id IN (?)` for the bound list. -/
def deleteTagsNotIn (inList : List Int → Int → Bool) (newTagIds : List Int) (evidenceID : Int)
    (table : List TagRow) : List TagRow :=
  table.filter (fun row => !(!(inList newTagIds row.tagId) && row.evidenceId == evidenceID))

/-- `SELECT tag_id FROM tags WHERE evidence_id = ?`. -/
def selectTagIds (evidenceID : Int) (table : List TagRow) : List Int :=
  (table.filter (fun row => row.evidenceId == evidenceID)).map (fun row => row.tagId)

/-- The local `struct dataset` of `setEvidenceTags`. -/
structure Dataset where
  evidenceID : Int
  tagID : Int
  name : QString
  deriving DecidableEq, Repr

/-- The loop of `setEvidenceTags` that fills `tagDataToInsert`: the new tags whose
`serverTagId` does not occur in `currentTags`. -/
def tagDataToInsert (newTags : List Tag) (evidenceID : Int) (currentTags : List Int) :
    List Dataset :=
  (newTags.filter (fun newTag => currentTags.count newTag.serverTagId == 0)).map
    (fun newTag => ⟨evidenceID, newTag.serverTagId, newTag.tagName⟩)

/-- `INSERT INTO tags (evidence_id, tag_id, name) VALUES (?,?,?), (?,?,?) ...`: one row
for each item, in order. `allocId` is the local identifier the database gives to a row
inserted into the table as it stands. -/
def insertTags (allocId : List TagRow → Int) : List Dataset → List TagRow → List TagRow
  | [], table => table
  | item :: rest, table =>
    insertTags allocId rest (table ++ [⟨allocId table, item.evidenceID, item.tagID, item.name⟩])

/-- `DatabaseConnection::setEvidenceTags`, as the table it leaves when each of its
statements succeeds. `inList` is the verdict of the database on `tag_id IN (?)` for the
list bound in the DELETE (`driverInList` for Qt's SQLite driver). -/
def setEvidenceTags (inList : List Int → Int → Bool) (allocId : List TagRow → Int)
    (newTags : List Tag) (evidenceID : Int) (table : List TagRow) : List TagRow :=
  let newTagIds := newTags.map (fun tag => tag.serverTagId)
  let table1 := deleteTagsNotIn inList newTagIds evidenceID table
  let currentTags := selectTagIds evidenceID table1
  let toInsert := tagDataToInsert newTags evidenceID currentTags
  if toInsert ≠ [] then insertTags allocId toInsert table1 else table1

/-! ## Servers -/

/-- Modelled from the spec: `model::Server` of `models/server.h` (not among the sources),
which is also a row of table `servers`: identifier, display name, access key, secret key,
host path and the soft-delete timestamp, absent for a server that is not deleted. -/
structure Server where
  serverUuid : QString
  serverName : QString
  accessKey : QString
  secretKey : QString
  hostPath : QString
  deletedAt : Option QString
  deriving DecidableEq, Repr

/-- The error `createServer` throws. -/
inductive ServerError where
  /-- `BadDBData(msg)` -/
  | badDBData (msg : QString)
  deriving DecidableEq, Repr

/-- The statement of `createServer`. -/
def insertServerStmt : QString :=
  "INSERT INTO servers".toList ++
    " (uuid, server_name, access_key, secret_key, host_path)".toList ++
    " VALUES".toList ++
    " (?, ?, ?, ?, ?)".toList

/-- `DatabaseConnection::createServer`, up to its call of `doInsert`: `.error` is the
exception thrown before any statement is issued, `.ok q` the statement and bound values
handed to `doInsert`. -/
def createServer (newServer : Server) : Except ServerError DBQuery :=
  if (trimmed newServer.serverName).isEmpty || (trimmed newServer.serverUuid).isEmpty then
    .error (.badDBData "New servers require a non-empty name and uuid".toList)
  else
    .ok ⟨insertServerStmt,
      [.string newServer.serverUuid, .string newServer.serverName, .string newServer.accessKey,
        .string newServer.secretKey, .string newServer.hostPath]⟩

/-- `DatabaseConnection::deleteServer` on the rows of table `servers`:
`UPDATE servers SET deleted_at = datetime('now') WHERE uuid = ?`; `now` is the text
`datetime('now')` evaluates to. -/
def deleteServer (now : QString) (serverUuid : QString) (servers : List Server) : List Server :=
  servers.map (fun row =>
    if row.serverUuid = serverUuid then { row with deletedAt := some now } else row)

/-- `DatabaseConnection::restoreServer` on the rows of table `servers`:
`UPDATE servers SET deleted_at = NULL WHERE uuid = ?`. -/
def restoreServer (serverUuid : QString) (servers : List Server) : List Server :=
  servers.map (fun row =>
    if row.serverUuid = serverUuid then { row with deletedAt := none } else row)

/-! ## System migrations -/

/-- `DatabaseConnection::hasAppliedSystemMigration`. Modelled from the spec: table
`system_migrations` (its schema is not among the sources) holds a name per row, presence
meaning applied; it is the list of the names of its rows. -/
def hasAppliedSystemMigration (systemMigrations : List QString)
    (systemMigrationName : QString) : Bool :=
  decide (systemMigrations.count systemMigrationName > 0)

/-- `DatabaseConnection::applySystemMigration`, as the table it leaves when its INSERT
succeeds: `INSERT INTO system_migrations (migration_name) VALUES (?)`. -/
def applySystemMigration (systemMigrations : List QString)
    (systemMigrationName : QString) : List QString :=
  systemMigrations ++ [systemMigrationName]

/-- Modelled from the spec: the check-then-insert of a caller of the two functions (the
callers, `Migration::applyMigrations` among them, are not among the sources): the name is
applied only when it is not recorded yet. -/
def applySystemMigrationOnce (systemMigrations : List QString)
    (systemMigrationName : QString) : List QString :=
  if hasAppliedSystemMigration systemMigrations systemMigrationName then systemMigrations
  else applySystemMigration systemMigrations systemMigrationName

/-! ## Tag streams (`models/type_streams.h`) -/

/-- A value in a `QDataStream`, with the type it was written as. -/
inductive StreamItem where
  /-- an `int` (32 bits, signed) -/
  | int32 (v : Int)
  /-- a `qint64` -/
  | int64 (v : Int)
  /-- a `QString` -/
  | string (s : QString)
  deriving DecidableEq, Repr

/-- A `QDataStream`, as the sequence of the values written to it and not yet read. The
byte format of each value is Qt's and is not modelled: reading a value of a type gives
back the value written, when the next value was written as that type. -/
abbrev QDataStream := List StreamItem

/-- The conversion `int(n)` of a size: `n` modulo 2^32, read as a signed 32-bit integer. -/
def toInt32 (n : Int) : Int := (n + 2147483648) % 4294967296 - 2147483648

/-- `QDataStream& operator<<(QDataStream& out, const model::Tag& v)`. -/
def writeTag (out : QDataStream) (v : Tag) : QDataStream :=
  out ++ [.string v.tagName, .int64 v.id, .int64 v.serverTagId]

/-- `QDataStream& operator>>(QDataStream& in, model::Tag& v)`: the tag read and the rest
of the stream. The result is `none`, not modelled, when the stream does not hold a string
and two 64-bit integers next. -/
def readTag (inp : QDataStream) : Option (Tag × QDataStream) :=
  match inp with
  | .string tagName :: .int64 id :: .int64 serverTagId :: rest =>
    some (⟨id, serverTagId, tagName⟩, rest)
  | _ => none

/-- `QDataStream& operator<<(QDataStream& out, const std::vector<model::Tag>& v)`. -/
def writeTags (out : QDataStream) (v : List Tag) : QDataStream :=
  v.foldl writeTag (out ++ [.int32 (toInt32 v.length)])

/-- The loop `for(int i = 0; i < qty; i++)` of the vector's `operator>>`, with the
number of rounds still to run. -/
def readTagsLoop : Nat → QDataStream → List Tag → Option (List Tag × QDataStream)
  | 0, inp, v => some (v, inp)
  | rounds + 1, inp, v =>
    match readTag inp with
    | none => none
    | some (t, rest) => readTagsLoop rounds rest (v ++ [t])

/-- `QDataStream& operator>>(QDataStream& in, std::vector<model::Tag>& v)`: the vector
after the read and the rest of the stream. The result is `none` when `qty` is negative
(`v.reserve(qty)` then throws) and when the stream does not hold the values read (a case
that is not modelled). -/
def readTags (inp : QDataStream) (v : List Tag) : Option (List Tag × QDataStream) :=
  match inp with
  | .int32 qty :: rest => if qty < 0 then none else readTagsLoop qty.toNat rest v
  | _ => none

/-! # Properties -/

/-! ## The work set of the migration engine -/

theorem indexOf_nonneg_or (l : List QString) (x : QString) :
    indexOf l x = -1 ∨ 0 ≤ indexOf l x := by
  induction l with
  | nil => left; rfl
  | cons y ys ih =>
    unfold indexOf
    by_cases h : y = x
    · right; simp [h]
    · simp only [h, if_false]
      rcases ih with h1 | h1
      · left; simp [h1]
      · right
        have : indexOf ys x ≠ -1 := by omega
        simp only [this, if_false]; omega

theorem indexOf_eq_neg_one_iff (l : List QString) (x : QString) :
    indexOf l x = -1 ↔ x ∉ l := by
  induction l with
  | nil => simp [indexOf]
  | cons y ys ih =>
    unfold indexOf
    by_cases h : y = x
    · simp [h]
    · have hx : ¬ x = y := fun e => h e.symm
      simp only [h, if_false, List.mem_cons, hx, false_or]
      rw [← ih]
      rcases indexOf_nonneg_or ys x with h1 | h1
      · simp [h1]
      · have : indexOf ys x ≠ -1 := by omega
        simp only [this, if_false]
        constructor
        · intro h2; omega
        · intro h2; exact h2.elim

theorem removeAt_indexOf (l : List QString) (x : QString) (hx : x ∈ l) :
    removeAt l (indexOf l x) = l.erase x := by
  induction l with
  | nil => simp at hx
  | cons y ys ih =>
    by_cases h : y = x
    · subst h
      simp [indexOf, removeAt]
    · have hx2 : x ∈ ys := by
        rcases List.mem_cons.1 hx with e | e
        · exact absurd e.symm h
        · exact e
      have hne : indexOf ys x ≠ -1 := by
        rw [Ne, indexOf_eq_neg_one_iff]; exact fun hn => hn hx2
      have hnn : 0 ≤ indexOf ys x := by
        rcases indexOf_nonneg_or ys x with h1 | h1
        · exact absurd h1 hne
        · exact h1
      have ih2 := ih hx2
      unfold removeAt at ih2 ⊢
      unfold indexOf
      simp only [h, if_false, hne]
      have h3 : ¬ (indexOf ys x + 1 < 0) := by omega
      have h4 : ¬ (indexOf ys x < 0) := by omega
      simp only [h3, h4, if_false] at ih2 ⊢
      have h5 : (indexOf ys x + 1).toNat = (indexOf ys x).toNat + 1 := by omega
      rw [h5, List.eraseIdx_cons_succ, ih2]
      rw [List.erase_cons_tail]
      simpa using h

/-- One step of `compareLoop` at a file that is not a script. -/
theorem compareLoop_skip (p : QString) (rest applied acc : List QString)
    (h : right 4 p ≠ sqlSuffix) :
    compareLoop (p :: rest) applied acc = compareLoop rest applied acc := by
  simp [compareLoop, h]

theorem compareLoop_new (p : QString) (rest applied acc : List QString)
    (h : right 4 p = sqlSuffix) (hp : p ∉ applied) :
    compareLoop (p :: rest) applied acc = compareLoop rest applied (acc ++ [p]) := by
  have := (indexOf_eq_neg_one_iff applied p).2 hp
  simp [compareLoop, h, this]

theorem compareLoop_found (p : QString) (rest applied acc : List QString)
    (h : right 4 p = sqlSuffix) (hp : p ∈ applied) :
    compareLoop (p :: rest) applied acc = compareLoop rest (applied.erase p) acc := by
  have h1 : indexOf applied p ≠ -1 := by
    rw [Ne, indexOf_eq_neg_one_iff]; exact fun hn => hn hp
  simp [compareLoop, h, h1, removeAt_indexOf applied p hp]

theorem compareLoop_fst_mem (n : QString) (xs : List QString) :
    ∀ (applied acc : List QString), n ∈ applied →
      (∀ p ∈ xs, right 4 p = sqlSuffix → p ≠ n) → n ∈ (compareLoop xs applied acc).1 := by
  induction xs with
  | nil => intro applied acc hn _; simpa [compareLoop] using hn
  | cons p rest ih =>
    intro applied acc hn hxs
    have hrest : ∀ q ∈ rest, right 4 q = sqlSuffix → q ≠ n :=
      fun q hq => hxs q (List.mem_cons_of_mem _ hq)
    by_cases hs : right 4 p = sqlSuffix
    · have hpn : p ≠ n := hxs p (List.mem_cons_self _ _) hs
      by_cases hp : p ∈ applied
      · rw [compareLoop_found p rest applied acc hs hp]
        exact ih _ _ ((List.mem_erase_of_ne (Ne.symm hpn)).2 hn) hrest
      · rw [compareLoop_new p rest applied acc hs hp]
        exact ih _ _ hn hrest
    · rw [compareLoop_skip p rest applied acc hs]
      exact ih _ _ hn hrest

theorem compareLoop_eq_of_known (xs : List QString) :
    ∀ (applied acc : List QString), xs.Nodup → applied.Nodup →
      (∀ a ∈ applied, a ∈ xs ∧ right 4 a = sqlSuffix) →
      compareLoop xs applied acc =
        ([], acc ++ xs.filter (fun p => decide (right 4 p = sqlSuffix) && decide (p ∉ applied))) := by
  induction xs with
  | nil =>
    intro applied acc _ _ hk
    have : applied = [] := by
      cases applied with
      | nil => rfl
      | cons a as => exact absurd (hk a (List.mem_cons_self _ _)).1 (List.not_mem_nil _)
    simp [compareLoop, this]
  | cons p rest ih =>
    intro applied acc hnd hand hk
    have hprest : p ∉ rest := (List.nodup_cons.1 hnd).1
    have hndrest : rest.Nodup := (List.nodup_cons.1 hnd).2
    by_cases hs : right 4 p = sqlSuffix
    · by_cases hp : p ∈ applied
      · rw [compareLoop_found p rest applied acc hs hp]
        have hk2 : ∀ a ∈ applied.erase p, a ∈ rest ∧ right 4 a = sqlSuffix := by
          intro a ha
          have ha2 := (List.Nodup.mem_erase_iff hand).1 ha
          have := hk a ha2.2
          refine ⟨?_, this.2⟩
          rcases List.mem_cons.1 this.1 with e | e
          · exact absurd e ha2.1
          · exact e
        rw [ih _ _ hndrest (hand.erase p) hk2]
        have hfil : rest.filter (fun q => decide (right 4 q = sqlSuffix) && decide (q ∉ applied.erase p))
            = rest.filter (fun q => decide (right 4 q = sqlSuffix) && decide (q ∉ applied)) := by
          apply List.filter_congr
          intro q hq
          have hqp : q ≠ p := fun e => hprest (e ▸ hq)
          have : q ∈ applied.erase p ↔ q ∈ applied := List.mem_erase_of_ne hqp
          simp [this]
        rw [hfil]
        simp [List.filter_cons, hs, hp]
      · rw [compareLoop_new p rest applied acc hs hp]
        have hk2 : ∀ a ∈ applied, a ∈ rest ∧ right 4 a = sqlSuffix := by
          intro a ha
          have := hk a ha
          refine ⟨?_, this.2⟩
          rcases List.mem_cons.1 this.1 with e | e
          · exact absurd (e ▸ ha) hp
          · exact e
        rw [ih _ _ hndrest hand hk2]
        simp [List.filter_cons, hs, hp]
    · rw [compareLoop_skip p rest applied acc hs]
      have hk2 : ∀ a ∈ applied, a ∈ rest ∧ right 4 a = sqlSuffix := by
        intro a ha
        have := hk a ha
        refine ⟨?_, this.2⟩
        rcases List.mem_cons.1 this.1 with e | e
        · exact absurd (e ▸ this.2) hs
        · exact e
      rw [ih _ _ hndrest hand hk2]
      simp [List.filter_cons, hs]

theorem compareLoop_self (xs : List QString) :
    ∀ acc : List QString,
      compareLoop xs (xs.filter (fun p => decide (right 4 p = sqlSuffix))) acc = ([], acc) := by
  induction xs with
  | nil => intro acc; simp [compareLoop]
  | cons p rest ih =>
    intro acc
    by_cases hs : right 4 p = sqlSuffix
    · have hf : (p :: rest).filter (fun p => decide (right 4 p = sqlSuffix))
          = p :: rest.filter (fun p => decide (right 4 p = sqlSuffix)) := by
        simp [List.filter_cons, hs]
      rw [hf, compareLoop_found p rest _ acc hs (List.mem_cons_self _ _)]
      simpa using ih acc
    · have hf : (p :: rest).filter (fun p => decide (right 4 p = sqlSuffix))
          = rest.filter (fun p => decide (right 4 p = sqlSuffix)) := by
        simp [List.filter_cons, hs]
      rw [hf, compareLoop_skip p rest _ acc hs]
      exact ih acc

theorem compareLoop_empty_history (xs : List QString) :
    ∀ acc : List QString,
      compareLoop xs [] acc = ([], acc ++ xs.filter (fun p => decide (right 4 p = sqlSuffix))) := by
  induction xs with
  | nil => intro acc; simp [compareLoop]
  | cons p rest ih =>
    intro acc
    by_cases hs : right 4 p = sqlSuffix
    · rw [compareLoop_new p rest [] acc hs (List.not_mem_nil _), ih]
      simp [List.filter_cons, hs]
    · rw [compareLoop_skip p rest [] acc hs, ih]
      simp [List.filter_cons, hs]

theorem right_four_eq_iff (p : QString) : right 4 p = sqlSuffix ↔ sqlSuffix <:+ p := by
  constructor
  · intro h
    rw [← h]
    exact List.drop_suffix _ _
  · rintro ⟨t, rfl⟩
    have : (t ++ sqlSuffix).length - 4 = t.length := by
      simp [sqlSuffix]
    show List.drop ((t ++ sqlSuffix).length - 4) (t ++ sqlSuffix) = sqlSuffix
    rw [this, List.drop_left]

/-- Claim C1. When the history read from the database holds a name that is not one of the
enumerated script files (no enumerated file ending in `.sql` has that name), `migrateDB`
ends with `BadDatabaseStateError` and leaves the database as it found it: no script
statement is added to the trace and no history row is inserted. -/
theorem migrateDB_unknown_history_fails (w : World) (db : Db) (n : QString)
    (hread : w.selectOk db = true) (hn : n ∈ db.migrations)
    (hunknown : n ∉ w.allMigrations.filter (fun p => decide (sqlSuffix <:+ p))) :
    getUnappliedMigrations w.allMigrations (some db.migrations) = .error .badDatabaseState ∧
      migrateDB w db = ⟨db, some .badDatabaseState⟩ := by
  have hmem : n ∈ (compareLoop w.allMigrations db.migrations []).1 := by
    apply compareLoop_fst_mem n w.allMigrations db.migrations [] hn
    intro p hp hs hpn
    apply hunknown
    rw [List.mem_filter]
    subst hpn
    exact ⟨hp, by simpa using (right_four_eq_iff p).1 hs⟩
  have hne : (compareLoop w.allMigrations db.migrations []).1 ≠ [] :=
    List.ne_nil_of_mem hmem
  have hget : getUnappliedMigrations w.allMigrations (some db.migrations)
      = .error .badDatabaseState := by
    simp [getUnappliedMigrations, hne]
  refine ⟨hget, ?_⟩
  simp [migrateDB, readHistory, hread, hget]

/-- Witness of C1: the history names `9.sql`, the only embedded file is `1.sql`. -/
theorem migrateDB_unknown_history_fails_witness :
    migrateDB ⟨["1.sql".toList], fun _ => some [], fun _ => true, fun _ _ => true,
        fun _ _ => true⟩ ⟨["9.sql".toList], []⟩
      = ⟨⟨["9.sql".toList], []⟩, some .badDatabaseState⟩ :=
  (migrateDB_unknown_history_fails
    ⟨["1.sql".toList], fun _ => some [], fun _ => true, fun _ _ => true, fun _ _ => true⟩
    ⟨["9.sql".toList], []⟩ "9.sql".toList rfl (by decide) (by decide)).2

/-- Claim C2. For an enumeration of the embedded files sorted strictly by name (under any
irreflexive order `lt`) and a history of distinct names, each an enumerated file ending
in `.sql`, `getUnappliedMigrations` returns without error the enumerated files that end
in `.sql` and are not in the history, in enumeration order: the result is the enumeration
filtered, so each such file occurs once and the result is sorted as the enumeration is. -/
theorem getUnappliedMigrations_work_set (lt : QString → QString → Prop)
    (allMigrations history : List QString)
    (hirr : ∀ a, ¬ lt a a) (hsorted : allMigrations.Pairwise lt)
    (hdistinct : history.Nodup)
    (hknown : ∀ n ∈ history, n ∈ allMigrations ∧ sqlSuffix <:+ n) :
    getUnappliedMigrations allMigrations (some history) =
        .ok (allMigrations.filter (fun p => decide (sqlSuffix <:+ p) && decide (p ∉ history))) ∧
      (allMigrations.filter
        (fun p => decide (sqlSuffix <:+ p) && decide (p ∉ history))).Pairwise lt ∧
      (allMigrations.filter
        (fun p => decide (sqlSuffix <:+ p) && decide (p ∉ history))).Nodup := by
  have hnd : allMigrations.Nodup := by
    unfold List.Nodup
    exact List.Pairwise.imp (fun {a b} (h : lt a b) (e : a = b) => hirr a (by subst e; exact h))
      hsorted
  have hk : ∀ a ∈ history, a ∈ allMigrations ∧ right 4 a = sqlSuffix :=
    fun a ha => ⟨(hknown a ha).1, (right_four_eq_iff a).2 (hknown a ha).2⟩
  have hloop := compareLoop_eq_of_known allMigrations history [] hnd hdistinct hk
  have hfil : allMigrations.filter
        (fun p => decide (right 4 p = sqlSuffix) && decide (p ∉ history))
      = allMigrations.filter (fun p => decide (sqlSuffix <:+ p) && decide (p ∉ history)) := by
    apply List.filter_congr
    intro p _
    by_cases h : sqlSuffix <:+ p
    · simp [h, (right_four_eq_iff p).2 h]
    · have : ¬ right 4 p = sqlSuffix := fun e => h ((right_four_eq_iff p).1 e)
      simp [h, this]
  refine ⟨?_, hsorted.filter _, hnd.sublist (List.filter_sublist _)⟩
  rw [← hfil]
  simp [getUnappliedMigrations, hloop]

/-- Witness of C2: of the files `1.sql`, `2.sql`, `3.txt` with `1.sql` applied, `2.sql` is
the work set. -/
theorem getUnappliedMigrations_work_set_witness :
    getUnappliedMigrations ["1.sql".toList, "2.sql".toList, "3.txt".toList]
      (some ["1.sql".toList]) = .ok ["2.sql".toList] :=
  (getUnappliedMigrations_work_set (fun a b => a < b)
    ["1.sql".toList, "2.sql".toList, "3.txt".toList] ["1.sql".toList]
    (fun a => lt_irrefl a) (by decide) (by decide) (by decide)).1

theorem nonBlank_of_blank {s : QString} (h : trimmed s = []) : nonBlank s = false := by
  simp [nonBlank, h]

theorem nonBlank_of_not_blank {s : QString} (h : ¬ trimmed s = []) : nonBlank s = true := by
  simp [nonBlank, h]

/-- What a run of the statement loop that ends without error has done. -/
theorem runStatements_ok (w : World) (stmts : List QString) :
    ∀ (db db1 : Db), runStatements w stmts db = ⟨db1, none⟩ →
      db1.migrations = db.migrations ∧
        db1.executed = db.executed ++ stmts.filter nonBlank := by
  induction stmts with
  | nil =>
    intro db db1 h
    simp only [runStatements, Outcome.mk.injEq, and_true] at h
    subst h; simp
  | cons s rest ih =>
    intro db db1 h
    by_cases hb : trimmed s = []
    · simp only [runStatements, hb, if_true] at h
      have := ih db db1 h
      simpa [List.filter_cons, nonBlank_of_blank hb] using this
    · by_cases hok : w.stmtOk db s = true
      · simp only [runStatements, hb, if_false, hok, if_true] at h
        have := ih _ db1 h
        simpa [List.filter_cons, nonBlank_of_not_blank hb] using this
      · simp [runStatements, hb, hok] at h

theorem scriptStatements_of_read {w : World} {name content : QString}
    (h : w.readFile name = some content) :
    scriptStatements w name = (extractMigrateUpContent content).filter nonBlank := by
  simp [scriptStatements, h]

/-- What a run of the script loop that ends without error has done. -/
theorem applyMigrations_ok (w : World) (work : List QString) :
    ∀ (db db1 : Db), applyMigrations w work db = ⟨db1, none⟩ →
      db1.migrations = db.migrations ++ work ∧
        db1.executed = db.executed ++ work.flatMap (scriptStatements w) := by
  induction work with
  | nil =>
    intro db db1 h
    simp only [applyMigrations, Outcome.mk.injEq, and_true] at h
    subst h; simp
  | cons m rest ih =>
    intro db db1 h
    cases hr : w.readFile m with
    | none => simp [applyMigrations, hr] at h
    | some content =>
      cases hrun : runStatements w (extractMigrateUpContent content) db with
      | mk db2 err =>
        cases err with
        | some e => simp [applyMigrations, hr, hrun] at h
        | none =>
          obtain ⟨h1, h2⟩ := runStatements_ok w _ db db2 hrun
          by_cases hins : w.insertOk db2 m = true
          · simp only [applyMigrations, hr, hrun, hins, if_true] at h
            obtain ⟨h3, h4⟩ := ih _ db1 h
            refine ⟨?_, ?_⟩
            · simpa [h1] using h3
            · simpa [h2, scriptStatements_of_read hr] using h4
          · simp [applyMigrations, hr, hrun, hins] at h

/-- Claim C3. When `migrateDB` runs on an empty history and ends without error (every
statement succeeded), the history it leaves is the enumerated `.sql` files; a second run
with the same script files, whose history query succeeds, computes an empty work set and
leaves the database as it is: no statement is added to the trace, no row to the history. -/
theorem migrateDB_second_run_noop (w : World) (db db1 : Db)
    (hempty : db.migrations = [])
    (hfirst : migrateDB w db = ⟨db1, none⟩)
    (hread : w.selectOk db1 = true) :
    db1.migrations = w.allMigrations.filter (fun p => decide (right 4 p = sqlSuffix)) ∧
      getUnappliedMigrations w.allMigrations (readHistory w db1) = .ok [] ∧
      migrateDB w db1 = ⟨db1, none⟩ := by
  have hget : getUnappliedMigrations w.allMigrations (readHistory w db)
      = .ok (w.allMigrations.filter (fun p => decide (right 4 p = sqlSuffix))) := by
    unfold readHistory
    by_cases hs : w.selectOk db = true
    · simp [getUnappliedMigrations, hs, hempty, compareLoop_empty_history]
    · simp [getUnappliedMigrations, hs, compareLoop_empty_history]
  have hrun : applyMigrations w
      (w.allMigrations.filter (fun p => decide (right 4 p = sqlSuffix))) db = ⟨db1, none⟩ := by
    simpa [migrateDB, hget] using hfirst
  have hhist : db1.migrations
      = w.allMigrations.filter (fun p => decide (right 4 p = sqlSuffix)) := by
    have := (applyMigrations_ok w _ db db1 hrun).1
    simpa [hempty] using this
  have hget2 : getUnappliedMigrations w.allMigrations (readHistory w db1) = .ok [] := by
    simp [readHistory, hread, getUnappliedMigrations, hhist, compareLoop_self]
  refine ⟨hhist, hget2, ?_⟩
  simp [migrateDB, hget2, applyMigrations]

/-- Witness of C3: the first run applies `1.sql`, the second run changes nothing. -/
theorem migrateDB_second_run_noop_witness :
    migrateDB sampleWorld ⟨[], []⟩ = ⟨⟨["1.sql".toList], ["CREATE TABLE t(x);\n".toList]⟩, none⟩ ∧
      migrateDB sampleWorld ⟨["1.sql".toList], ["CREATE TABLE t(x);\n".toList]⟩
        = ⟨⟨["1.sql".toList], ["CREATE TABLE t(x);\n".toList]⟩, none⟩ :=
  ⟨by decide,
    (migrateDB_second_run_noop sampleWorld ⟨[], []⟩
      ⟨["1.sql".toList], ["CREATE TABLE t(x);\n".toList]⟩ rfl (by decide) rfl).2.2⟩

theorem not_down_of_up {line : QString} (h : isUpMarker line = true) :
    isDownMarker line = false := by
  unfold isUpMarker at h
  unfold isDownMarker
  have h1 : toLower (trimmed line) = upMarker := by simpa using h
  rw [h1]
  decide

/-- The loop of `extractMigrateUpContent` once it is copying. -/
theorem upLoop_copying (lines : List QString) :
    ∀ upContent : QString, upLoop lines true upContent =
      upContent ++ ((lines.takeWhile (fun line => !isDownMarker line)).filter
        (fun line => !isUpMarker line)).flatMap (fun line => line ++ "\n".toList) := by
  induction lines with
  | nil => intro upContent; simp [upLoop]
  | cons line rest ih =>
    intro upContent
    by_cases hu : isUpMarker line = true
    · have hd := not_down_of_up hu
      simp [upLoop, hu, hd, ih, List.takeWhile_cons, List.filter_cons]
    · have hu2 : isUpMarker line = false := by simpa using hu
      by_cases hd : isDownMarker line = true
      · simp [upLoop, hu2, hd, List.takeWhile_cons]
      · have hd2 : isDownMarker line = false := by simpa using hd
        simp [upLoop, hu2, hd2, ih, List.takeWhile_cons, List.filter_cons, List.append_assoc]

/-- The loop of `extractMigrateUpContent` before it has met an up marker. -/
theorem upLoop_waiting (lines : List QString) :
    ∀ upContent : QString, upLoop lines false upContent =
      upContent ++ (upSectionLines lines).flatMap (fun line => line ++ "\n".toList) := by
  induction lines with
  | nil => intro upContent; simp [upLoop, upSectionLines]
  | cons line rest ih =>
    intro upContent
    by_cases hu : isUpMarker line = true
    · simp [upLoop, hu, upLoop_copying, upSectionLines, List.dropWhile_cons]
    · have hu2 : isUpMarker line = false := by simpa using hu
      have hsec : upSectionLines (line :: rest) = upSectionLines rest := by
        simp [upSectionLines, List.dropWhile_cons, hu2]
      by_cases hd : isDownMarker line = true
      · simp [upLoop, hu2, hd, ih, hsec]
      · have hd2 : isDownMarker line = false := by simpa using hd
        simp [upLoop, hu2, hd2, ih, hsec]

/-- Claim C10. The text `extractMigrateUpContent` splits into statements is made of the lines
of the up section, each followed by a newline: the lines after the first up marker line and
before the next down marker line (or the end of the file). No line of it is a marker line;
the lines before the up marker and from the down marker on are not in it. In the
specification's example the only non-blank statement is `CREATE TABLE t(x);`. -/
theorem extractMigrateUpContent_up_section (allContent : QString) :
    upContentOf allContent =
        (upSectionLines (split allContent "\n".toList)).flatMap
          (fun line => line ++ "\n".toList) ∧
      extractMigrateUpContent allContent =
        split ((upSectionLines (split allContent "\n".toList)).flatMap
          (fun line => line ++ "\n".toList)) statementSplitter ∧
      (∀ line ∈ upSectionLines (split allContent "\n".toList),
        isUpMarker line = false ∧ isDownMarker line = false) ∧
      (extractMigrateUpContent exampleScript).filter nonBlank
        = ["CREATE TABLE t(x);".toList] := by
  have h1 : upContentOf allContent =
      (upSectionLines (split allContent "\n".toList)).flatMap
        (fun line => line ++ "\n".toList) := by
    simp [upContentOf, upLoop_waiting]
  refine ⟨h1, ?_, ?_, by decide⟩
  · rw [extractMigrateUpContent, h1]
  · intro line hline
    unfold upSectionLines at hline
    rw [List.mem_filter] at hline
    have hd := List.mem_takeWhile_imp hline.1
    simpa using And.intro hline.2 hd

/-! ## The evidence filter query -/

theorem intercalate_cons_flatMap {α : Type} (sep first : List α) (others : List (List α)) :
    List.intercalate sep (first :: others) = first ++ others.flatMap (fun p => sep ++ p) := by
  induction others generalizing first with
  | nil => simp [List.intercalate]
  | cons b l ih =>
    have h : List.intercalate sep (first :: b :: l) = first ++ (sep ++ List.intercalate sep (b :: l)) := by
      simp [List.intercalate, List.intersperse]
    rw [h, ih b]
    simp

theorem foldl_append_flatMap {α : Type} (sep : List α) (others : List (List α)) :
    ∀ init : List α, others.foldl (fun q part => q ++ (sep ++ part)) init
      = init ++ others.flatMap (fun p => sep ++ p) := by
  induction others with
  | nil => intro init; simp
  | cons b l ih => intro init; simp [ih, List.append_assoc]

/-- The join loop of the builder is the WHERE clause of the specification. -/
theorem appendParts_eq (query : QString) (parts : List QString) :
    appendParts query parts = query ++ whereClause " WHERE ".toList " AND ".toList parts := by
  cases parts with
  | nil => simp [appendParts, whereClause]
  | cons first others =>
    simp only [appendParts, whereClause, foldl_append_flatMap, intercalate_cons_flatMap]
    simp [List.append_assoc]

/-- The two vectors the builder fills are the texts and the values of the conditions. -/
theorem build_eq_conditions (f : EvidenceFilters) :
    buildGetEvidenceWithFiltersQuery f =
      ⟨appendParts baseSelect ((conditionsOf f).map (fun c => c.text)),
        (conditionsOf f).filterMap (fun c => c.value)⟩ := by
  obtain ⟨he, sub, slug, ct, sd, ed⟩ := f
  cases he <;> cases sub <;> by_cases hs : slug = [] <;> by_cases hc : ct = [] <;>
    cases sd <;> cases ed <;>
    simp [buildGetEvidenceWithFiltersQuery, conditionsOf, QDate.isValid, QDate.addDays, hs, hc]


theorem bindValues_nil (a : QString) : bindValues a [] = a.map Bound.char := by
  induction a with
  | nil => rfl
  | cons c cs ih => by_cases h : c = '?' <;> simp [bindValues, h, ih]

theorem bindValues_append (a b : QString) :
    ∀ (xs ys : List QVariant), a.count '?' = xs.length →
      bindValues (a ++ b) (xs ++ ys) = bindValues a xs ++ bindValues b ys := by
  induction a with
  | nil =>
    intro xs ys h
    have : xs = [] := List.length_eq_zero.1 (by simpa using h.symm)
    subst this
    simp [bindValues]
  | cons c cs ih =>
    intro xs ys h
    by_cases hc : c = '?'
    · subst hc
      cases xs with
      | nil => simp at h
      | cons v rest =>
        have h2 : cs.count '?' = rest.length := by simpa using h
        simp [bindValues, ih rest ys h2]
    · have h2 : cs.count '?' = xs.length := by
        rw [List.count_cons_of_ne (fun e => hc e.symm)] at h
        exact h
      simp [bindValues, hc, ih xs ys h2]

theorem filterMap_value_cons (c : Condition) (l : List Condition) :
    (c :: l).filterMap (fun c => c.value) = c.value.toList ++ l.filterMap (fun c => c.value) := by
  cases h : c.value <;> simp [List.filterMap_cons, h]

theorem whereClause_cons {α : Type} (kw sep first : List α) (others : List (List α)) :
    whereClause kw sep (first :: others) = kw ++ (first ++ others.flatMap (fun p => sep ++ p)) := by
  simp [whereClause, intercalate_cons_flatMap]

/-- Binding the joined conditions binds each condition to its own value. -/
theorem bindValues_joined (sep : QString) (hsep : sep.count '?' = 0) (l : List Condition)
    (h : ∀ c ∈ l, c.text.count '?' = c.value.toList.length) :
    bindValues (l.flatMap (fun c => sep ++ c.text)) (l.filterMap (fun c => c.value))
      = l.flatMap (fun c => sep.map Bound.char ++ bindValues c.text c.value.toList) ∧
    (l.flatMap (fun c => sep ++ c.text)).count '?' = (l.filterMap (fun c => c.value)).length := by
  induction l with
  | nil => simp [bindValues]
  | cons c rest ih =>
    have hc := h c (List.mem_cons_self _ _)
    obtain ⟨ih1, ih2⟩ := ih (fun d hd => h d (List.mem_cons_of_mem _ hd))
    have hcount : (sep ++ c.text).count '?' = c.value.toList.length := by
      rw [List.count_append, hsep, hc, Nat.zero_add]
    constructor
    · rw [filterMap_value_cons, List.flatMap_cons, List.flatMap_cons,
        bindValues_append _ _ _ _ hcount, ih1]
      have := bindValues_append sep c.text [] c.value.toList (by simpa using hsep)
      rw [List.nil_append] at this
      rw [this, bindValues_nil]
    · rw [filterMap_value_cons, List.flatMap_cons, List.count_append, hcount, ih2,
        List.length_append]

theorem flatMap_map_text (sep : QString) (l : List Condition) :
    (l.map (fun c => c.text)).flatMap (fun p => sep ++ p) = l.flatMap (fun c => sep ++ c.text) := by
  induction l with
  | nil => rfl
  | cons c rest ih => simp [List.flatMap_cons, ih]

theorem flatMap_map_bound (sep : List Bound) (l : List Condition) :
    (l.map (fun c => bindValues c.text c.value.toList)).flatMap (fun p => sep ++ p)
      = l.flatMap (fun c => sep ++ bindValues c.text c.value.toList) := by
  induction l with
  | nil => rfl
  | cons c rest ih => simp [List.flatMap_cons, ih]

/-- Binding a WHERE clause binds each of its conditions to its own value, and the clause
holds as many placeholders as there are values. -/
theorem bindValues_whereClause (l : List Condition)
    (h : ∀ c ∈ l, c.text.count '?' = c.value.toList.length) :
    bindValues (whereClause " WHERE ".toList " AND ".toList (l.map (fun c => c.text)))
        (l.filterMap (fun c => c.value))
      = whereClause (" WHERE ".toList.map Bound.char) (" AND ".toList.map Bound.char)
          (l.map (fun c => bindValues c.text c.value.toList)) ∧
    (whereClause " WHERE ".toList " AND ".toList (l.map (fun c => c.text))).count '?'
      = (l.filterMap (fun c => c.value)).length := by
  cases l with
  | nil => simp [whereClause, bindValues]
  | cons c rest =>
    have hc := h c (List.mem_cons_self _ _)
    obtain ⟨h1, h2⟩ := bindValues_joined " AND ".toList (by decide) rest
      (fun d hd => h d (List.mem_cons_of_mem _ hd))
    have hkw : (" WHERE ".toList ++ c.text).count '?' = c.value.toList.length := by
      rw [List.count_append, hc]
      have : " WHERE ".toList.count '?' = 0 := by decide
      rw [this, Nat.zero_add]
    rw [List.map_cons, List.map_cons, whereClause_cons, whereClause_cons, filterMap_value_cons,
      flatMap_map_text, flatMap_map_bound, ← List.append_assoc]
    constructor
    · rw [bindValues_append _ _ _ _ hkw, h1]
      have := bindValues_append " WHERE ".toList c.text [] c.value.toList (by decide)
      rw [List.nil_append] at this
      rw [this, bindValues_nil, List.append_assoc]
    · rw [List.count_append, hkw, h2, List.length_append]

/-- Each condition of the specification holds one placeholder when it has a value and
none otherwise. -/
theorem conditionsOf_placeholders (f : EvidenceFilters) :
    ∀ c ∈ conditionsOf f, c.text.count '?' = c.value.toList.length := by
  intro c hc
  obtain ⟨he, sub, slug, ct, sd, ed⟩ := f
  simp only [conditionsOf, List.mem_append] at hc
  rcases hc with ((((hc | hc) | hc) | hc) | hc) | hc
  · cases he <;> simp at hc <;> subst hc <;> decide
  · cases sub <;> simp at hc <;> subst hc <;> decide
  · by_cases hs : slug = [] <;> simp [hs] at hc
    subst hc; simp
  · by_cases hs : ct = [] <;> simp [hs] at hc
    subst hc; simp
  · cases sd <;> simp at hc
    subst hc; simp
  · cases ed <;> simp at hc
    subst hc; simp


theorem build_query_eq (f : EvidenceFilters) :
    (buildGetEvidenceWithFiltersQuery f).query =
      baseSelect ++ whereClause " WHERE ".toList " AND ".toList
        ((conditionsOf f).map (fun c => c.text)) := by
  rw [build_eq_conditions, appendParts_eq]

theorem build_values_eq (f : EvidenceFilters) :
    (buildGetEvidenceWithFiltersQuery f).values = (conditionsOf f).filterMap (fun c => c.value) := by
  rw [build_eq_conditions]

theorem build_bound_eq (f : EvidenceFilters) :
    bindValues (buildGetEvidenceWithFiltersQuery f).query
        (buildGetEvidenceWithFiltersQuery f).values =
      baseSelect.map Bound.char ++
        whereClause (" WHERE ".toList.map Bound.char) (" AND ".toList.map Bound.char)
          ((conditionsOf f).map (fun c => bindValues c.text c.value.toList)) := by
  rw [build_query_eq, build_values_eq]
  have h := bindValues_append baseSelect
    (whereClause " WHERE ".toList " AND ".toList ((conditionsOf f).map (fun c => c.text)))
    [] ((conditionsOf f).filterMap (fun c => c.value)) (by decide)
  rw [List.nil_append] at h
  rw [h, bindValues_nil, (bindValues_whereClause _ (conditionsOf_placeholders f)).1]

/-- Claim C5. In the statement built for any filters, the number of `?` placeholders equals
the number of bound arguments; the bound arguments are the values of the conditions, in
the order of the conditions; and binding the arguments by position gives the statement in
which every condition has its own value in the place of its placeholder. -/
theorem build_placeholders_match_values (f : EvidenceFilters) :
    (buildGetEvidenceWithFiltersQuery f).query.count '?' =
        (buildGetEvidenceWithFiltersQuery f).values.length ∧
      (buildGetEvidenceWithFiltersQuery f).values =
        (conditionsOf f).filterMap (fun c => c.value) ∧
      bindValues (buildGetEvidenceWithFiltersQuery f).query
          (buildGetEvidenceWithFiltersQuery f).values =
        baseSelect.map Bound.char ++
          whereClause (" WHERE ".toList.map Bound.char) (" AND ".toList.map Bound.char)
            ((conditionsOf f).map (fun c => bindValues c.text c.value.toList)) := by
  refine ⟨?_, build_values_eq f, build_bound_eq f⟩
  rw [build_query_eq, build_values_eq, List.count_append,
    (bindValues_whereClause _ (conditionsOf_placeholders f)).2]
  have : baseSelect.count '?' = 0 := by decide
  rw [this, Nat.zero_add]

/-- Counterexample to C6: with only the has-error flag set no condition among operation
slug, content type, start date and end date is present, yet one argument is bound: the
pattern of the has-error condition. -/
theorem hasError_binds_an_argument :
    valueFilterCount ⟨.Yes, .Any, [], [], none, none⟩ = 0 ∧
      (buildGetEvidenceWithFiltersQuery ⟨.Yes, .Any, [], [], none, none⟩).values
        = [QVariant.string "_%".toList] ∧
      (buildGetEvidenceWithFiltersQuery ⟨.Yes, .Any, [], [], none, none⟩).values.length
        ≠ valueFilterCount ⟨.Yes, .Any, [], [], none, none⟩ := by
  decide

/-- Claim C6, amended. The submission-state condition contributes no bound argument: the
bound arguments do not depend on that flag. Each other present condition, the has-error
condition included, contributes exactly one: the number of bound arguments is one for the
has-error flag when it is not `Any`, plus the number of filters present among operation
slug, content type, start date and end date. -/
theorem build_values_length (f : EvidenceFilters) :
    (buildGetEvidenceWithFiltersQuery f).values.length =
        (if f.hasError = .Any then 0 else 1) + valueFilterCount f ∧
      ∀ t : Tri, (buildGetEvidenceWithFiltersQuery { f with submitted := t }).values =
        (buildGetEvidenceWithFiltersQuery f).values := by
  obtain ⟨he, sub, slug, ct, sd, ed⟩ := f
  constructor
  · rw [build_values_eq]
    cases he <;> cases sub <;> by_cases hs : slug = [] <;> by_cases hc : ct = [] <;>
      cases sd <;> cases ed <;>
      simp [conditionsOf, valueFilterCount, QDate.isValid, hs, hc]
  · intro t
    rw [build_values_eq, build_values_eq]
    cases t <;> cases sub <;> simp [conditionsOf]

theorem conditionsOf_eq_nil_iff (f : EvidenceFilters) : conditionsOf f = [] ↔ noFilter f := by
  obtain ⟨he, sub, slug, ct, sd, ed⟩ := f
  cases he <;> cases sub <;> by_cases hs : slug = [] <;> by_cases hc : ct = [] <;>
    cases sd <;> cases ed <;> simp [conditionsOf, noFilter, hs, hc]

theorem conditionsOf_letters (f : EvidenceFilters) :
    ∀ c ∈ conditionsOf f, c.text.count 'W' = 0 ∧ c.text.count 'A' = 0 := by
  intro c hc
  obtain ⟨he, sub, slug, ct, sd, ed⟩ := f
  simp only [conditionsOf, List.mem_append] at hc
  rcases hc with ((((hc | hc) | hc) | hc) | hc) | hc
  · cases he <;> simp at hc <;> subst hc <;> decide
  · cases sub <;> simp at hc <;> subst hc <;> decide
  · by_cases hs : slug = [] <;> simp [hs] at hc
    subst hc; dsimp only; constructor <;> decide
  · by_cases hs : ct = [] <;> simp [hs] at hc
    subst hc; dsimp only; constructor <;> decide
  · cases sd <;> simp at hc
    subst hc; dsimp only; constructor <;> decide
  · cases ed <;> simp at hc
    subst hc; dsimp only; constructor <;> decide

theorem count_joined (a : Char) (sep : QString) (l : List QString)
    (h : ∀ p ∈ l, p.count a = 0) :
    (l.flatMap (fun p => sep ++ p)).count a = l.length * sep.count a := by
  induction l with
  | nil => simp
  | cons b rest ih =>
    rw [List.flatMap_cons, List.count_append, List.count_append,
      h b (List.mem_cons_self _ _), ih (fun p hp => h p (List.mem_cons_of_mem _ hp)),
      List.length_cons, Nat.succ_mul]
    omega

/-- How often a character that no condition holds occurs in a WHERE clause. -/
theorem count_whereClause (a : Char) (kw sep : QString) (l : List QString)
    (h : ∀ p ∈ l, p.count a = 0) :
    (whereClause kw sep l).count a =
      if l = [] then 0 else kw.count a + (l.length - 1) * sep.count a := by
  cases l with
  | nil => simp [whereClause]
  | cons b rest =>
    rw [whereClause_cons, List.count_append, List.count_append,
      h b (List.mem_cons_self _ _),
      count_joined a sep rest (fun p hp => h p (List.mem_cons_of_mem _ hp))]
    simp

/-- Claim C7. The built statement is the base SELECT alone exactly when no filter is active,
and then it does not contain `WHERE`. Otherwise it is the base SELECT followed by `WHERE`
and the active conditions, in the order has-error, submitted, operation slug, content
type, start date, end date, with `AND` between consecutive conditions only: the keyword
`WHERE` occurs once (its letter `W` occurs once in the statement) and `AND` occurs once
less than there are conditions (so does its letter `A`). -/
theorem build_where_clause (f : EvidenceFilters) :
    (buildGetEvidenceWithFiltersQuery f).query =
        baseSelect ++ whereClause " WHERE ".toList " AND ".toList
          ((conditionsOf f).map (fun c => c.text)) ∧
      (conditionsOf f = [] ↔ noFilter f) ∧
      ((buildGetEvidenceWithFiltersQuery f).query = baseSelect ↔ noFilter f) ∧
      ("WHERE".toList <:+: (buildGetEvidenceWithFiltersQuery f).query ↔ ¬ noFilter f) ∧
      (buildGetEvidenceWithFiltersQuery f).query.count 'W' =
        (if conditionsOf f = [] then 0 else 1) ∧
      (buildGetEvidenceWithFiltersQuery f).query.count 'A' = (conditionsOf f).length - 1 := by
  have hq := build_query_eq f
  have hnil := conditionsOf_eq_nil_iff f
  have hletters : ∀ p ∈ (conditionsOf f).map (fun c => c.text),
      p.count 'W' = 0 ∧ p.count 'A' = 0 := by
    intro p hp
    obtain ⟨c, hc, rfl⟩ := List.mem_map.1 hp
    exact conditionsOf_letters f c hc
  have hmapnil : (conditionsOf f).map (fun c => c.text) = [] ↔ conditionsOf f = [] := by simp
  refine ⟨hq, hnil, ?_, ?_, ?_, ?_⟩
  · rw [hq, List.append_right_eq_self, ← hnil]
    cases h : conditionsOf f with
    | nil => simp [whereClause]
    | cons c rest => simp [whereClause]
  · rw [← hnil, hq]
    cases h : conditionsOf f with
    | nil =>
      simp only [List.map_nil, whereClause, List.append_nil, not_true_eq_false, iff_false]
      rintro ⟨s, t, hst⟩
      have hc : (s ++ "WHERE".toList ++ t).count 'W' = 0 := by
        rw [hst]; decide
      have h1 : "WHERE".toList.count 'W' = 1 := by decide
      rw [List.count_append, List.count_append, h1] at hc
      omega
    | cons c rest =>
      simp only [List.map_cons, whereClause, reduceCtorEq, not_false_eq_true, iff_true]
      refine ⟨baseSelect ++ [' '], [' '] ++ List.intercalate " AND ".toList
        (c.text :: rest.map (fun c => c.text)), ?_⟩
      have : " WHERE ".toList = [' '] ++ ("WHERE".toList ++ [' ']) := by decide
      rw [this]
      simp only [List.append_assoc]
  · rw [hq, List.count_append, count_whereClause _ _ _ _ (fun p hp => (hletters p hp).1)]
    have h1 : baseSelect.count 'W' = 0 := by decide
    have h2 : " WHERE ".toList.count 'W' = 1 := by decide
    have h3 : " AND ".toList.count 'W' = 0 := by decide
    rw [h1, h2, h3]
    simp
  · rw [hq, List.count_append, count_whereClause _ _ _ _ (fun p hp => (hletters p hp).2)]
    have h1 : baseSelect.count 'A' = 0 := by decide
    have h2 : " WHERE ".toList.count 'A' = 0 := by decide
    have h3 : " AND ".toList.count 'A' = 1 := by decide
    rw [h1, h2, h3]
    cases h : conditionsOf f <;> simp


theorem infix_joined {α : Type} (sep x : List α) (l : List (List α)) (h : x ∈ l) :
    x <:+: l.flatMap (fun p => sep ++ p) := by
  induction l with
  | nil => simp at h
  | cons b rest ih =>
    rw [List.flatMap_cons]
    rcases List.mem_cons.1 h with e | e
    · subst e
      exact ⟨sep, rest.flatMap (fun p => sep ++ p), by simp⟩
    · obtain ⟨s, t, hst⟩ := ih e
      exact ⟨sep ++ b ++ s, t, by rw [← hst]; simp⟩

/-- Each part of a WHERE clause stands in it. -/
theorem infix_whereClause {α : Type} (kw sep x : List α) (l : List (List α)) (h : x ∈ l) :
    x <:+: whereClause kw sep l := by
  cases l with
  | nil => simp at h
  | cons b rest =>
    rw [whereClause_cons]
    rcases List.mem_cons.1 h with e | e
    · subst e
      exact ⟨kw, rest.flatMap (fun p => sep ++ p), by simp⟩
    · obtain ⟨s, t, hst⟩ := infix_joined sep x rest e
      exact ⟨kw ++ b ++ s, t, by rw [← hst]; simp⟩

/-- A condition of the filters stands, bound to its own value, in the bound statement. -/
theorem bound_condition_infix (f : EvidenceFilters) (c : Condition) (hc : c ∈ conditionsOf f) :
    bindValues c.text c.value.toList <:+:
      bindValues (buildGetEvidenceWithFiltersQuery f).query
        (buildGetEvidenceWithFiltersQuery f).values := by
  rw [build_bound_eq]
  have h1 : bindValues c.text c.value.toList ∈
      (conditionsOf f).map (fun c => bindValues c.text c.value.toList) :=
    List.mem_map.2 ⟨c, hc, rfl⟩
  obtain ⟨s, t, hst⟩ := infix_whereClause (" WHERE ".toList.map Bound.char)
    (" AND ".toList.map Bound.char) _ _ h1
  exact ⟨baseSelect.map Bound.char ++ s, t, by rw [← hst]; simp⟩

theorem conditionsHold_lower (d : Int) (row : EvidenceRow) :
    conditionHolds " recorded_date >= ? ".toList (some (.date (some d))) row
      = decide (d ≤ row.recordedDay) := by
  rfl

theorem conditionsHold_upper (d : Int) (row : EvidenceRow) :
    conditionHolds " recorded_date < ? ".toList (some (.date (some d))) row
      = decide (row.recordedDay < d) := by
  rfl

/-- Claim C8. For a valid start date the bound statement holds `recorded_date >= ?` with the
start date itself in the place of the placeholder, a condition true of the rows recorded
on or after that day. For a valid end date it holds `recorded_date < ?` with the day after
the end date in the place of the placeholder, a condition true of the rows recorded on or
before the end date: true of a row recorded on the end date, false of a row recorded on
the day after. With only the two dates set the statement selects the rows recorded from
the start date to the end date, both included. -/
theorem build_date_bounds (f : EvidenceFilters) :
    (∀ s : Int, f.startDate = some s →
      bindValues " recorded_date >= ? ".toList [.date (some s)] <:+:
          bindValues (buildGetEvidenceWithFiltersQuery f).query
            (buildGetEvidenceWithFiltersQuery f).values ∧
        ∀ row : EvidenceRow,
          conditionHolds " recorded_date >= ? ".toList (some (.date (some s))) row
            = decide (s ≤ row.recordedDay)) ∧
    (∀ e : Int, f.endDate = some e →
      bindValues " recorded_date < ? ".toList [.date (some (e + 1))] <:+:
          bindValues (buildGetEvidenceWithFiltersQuery f).query
            (buildGetEvidenceWithFiltersQuery f).values ∧
        (∀ row : EvidenceRow,
          conditionHolds " recorded_date < ? ".toList (some (.date (some (e + 1)))) row
            = decide (row.recordedDay ≤ e)) ∧
        (∀ row : EvidenceRow, row.recordedDay = e →
          conditionHolds " recorded_date < ? ".toList (some (.date (some (e + 1)))) row
            = true) ∧
        (∀ row : EvidenceRow, row.recordedDay = e + 1 →
          conditionHolds " recorded_date < ? ".toList (some (.date (some (e + 1)))) row
            = false)) ∧
    (∀ (s e : Int) (table : List EvidenceRow),
      getEvidenceWithFilters table { noFilters with startDate := some s, endDate := some e }
        = some (table.filter
            (fun row => decide (s ≤ row.recordedDay) && decide (row.recordedDay ≤ e)))) := by
  have hupper : ∀ (e : Int) (row : EvidenceRow),
      conditionHolds " recorded_date < ? ".toList (some (.date (some (e + 1)))) row
        = decide (row.recordedDay ≤ e) := by
    intro e row
    rw [conditionsHold_upper]
    by_cases h : row.recordedDay ≤ e
    · have : row.recordedDay < e + 1 := by omega
      simp [h, this]
    · have : ¬ row.recordedDay < e + 1 := by omega
      simp [h, this]
  refine ⟨?_, ?_, ?_⟩
  · intro s hs
    refine ⟨?_, conditionsHold_lower s⟩
    have hc : (⟨" recorded_date >= ? ".toList, some (.date (some s))⟩ : Condition)
        ∈ conditionsOf f := by
      simp [conditionsOf, hs]
    exact bound_condition_infix f _ hc
  · intro e he
    refine ⟨?_, hupper e, ?_, ?_⟩
    · have hc : (⟨" recorded_date < ? ".toList, some (.date (some (e + 1)))⟩ : Condition)
          ∈ conditionsOf f := by
        simp [conditionsOf, he]
      exact bound_condition_infix f _ hc
    · intro row hrow
      rw [hupper]; simp [hrow]
    · intro row hrow
      rw [hupper]; simp [hrow]
  · intro s e table
    have hparse : parseWhere (buildGetEvidenceWithFiltersQuery
        { noFilters with startDate := some s, endDate := some e }).query
        = some [" recorded_date >= ? ".toList, " recorded_date < ? ".toList] := by
      rfl
    have hvalues : (buildGetEvidenceWithFiltersQuery
        { noFilters with startDate := some s, endDate := some e }).values
        = [.date (some s), .date (some (e + 1))] := by
      rfl
    simp only [getEvidenceWithFilters, selectEvidence, hparse, hvalues, Option.map_some']
    congr 1
    apply List.filter_congr
    intro row _
    have : conditionsHold [" recorded_date >= ? ".toList, " recorded_date < ? ".toList]
        [.date (some s), .date (some (e + 1))] row
        = (conditionHolds " recorded_date >= ? ".toList (some (.date (some s))) row &&
            (conditionHolds " recorded_date < ? ".toList (some (.date (some (e + 1)))) row
              && true)) := by
      rfl
    rw [this, conditionsHold_lower, hupper]
    simp

/-- Witness of C8: start date day 5, end date day 7. -/
theorem build_date_bounds_witness :
    (bindValues " recorded_date >= ? ".toList [.date (some 5)] <:+:
        bindValues (buildGetEvidenceWithFiltersQuery ⟨.Any, .Yes, [], [], some 5, some 7⟩).query
          (buildGetEvidenceWithFiltersQuery ⟨.Any, .Yes, [], [], some 5, some 7⟩).values) ∧
      (bindValues " recorded_date < ? ".toList [.date (some (7 + 1))] <:+:
        bindValues (buildGetEvidenceWithFiltersQuery ⟨.Any, .Yes, [], [], some 5, some 7⟩).query
          (buildGetEvidenceWithFiltersQuery ⟨.Any, .Yes, [], [], some 5, some 7⟩).values) :=
  ⟨((build_date_bounds ⟨.Any, .Yes, [], [], some 5, some 7⟩).1 5 rfl).1,
    ((build_date_bounds ⟨.Any, .Yes, [], [], some 5, some 7⟩).2.1 7 rfl).1⟩


/-- The pattern `_%` matches the texts with at least one character. -/
theorem likeMatch_some_char (e : QString) : likeMatch "_%".toList e = !e.isEmpty := by
  cases e with
  | nil => rfl
  | cons c cs =>
    have h : likeMatch "_%".toList (c :: cs) = cs.tails.any (fun rest => likeMatch [] rest) := by
      rfl
    rw [h]
    have hmem : ([] : QString) ∈ cs.tails := by simp
    have : cs.tails.any (fun rest => likeMatch [] rest) = true :=
      List.any_eq_true.2 ⟨[], hmem, rfl⟩
    rw [this]; rfl

/-- The empty pattern matches the empty text only. -/
theorem likeMatch_empty (e : QString) : likeMatch [] e = e.isEmpty := by
  cases e <;> rfl

theorem conditionsHold_like (pattern : QString) (row : EvidenceRow) :
    conditionsHold [" error LIKE ? ".toList] [.string pattern] row =
      match row.error with
      | some e => likeMatch pattern e
      | none => false := by
  have h : conditionsHold [" error LIKE ? ".toList] [.string pattern] row =
      (conditionHolds " error LIKE ? ".toList (some (.string pattern)) row && true) := by
    rfl
  rw [h, Bool.and_true]
  obtain ⟨err, up, slug, ct, day⟩ := row
  cases err <;> rfl

/-- Claim C9. From any table, the statement built for `hasError = Yes` with every other
filter unconstrained selects the rows whose error text has at least one character, and
the one built for `hasError = No` the rows whose error text is the empty string (a row
whose error is NULL is selected by neither). From the two rows of the specification's
example, `hasError = Yes` selects the second row only. -/
theorem hasError_filter_rows (table : List EvidenceRow) :
    getEvidenceWithFilters table { noFilters with hasError := .Yes } =
        some (table.filter (fun row =>
          match row.error with
          | some e => decide (1 ≤ e.length)
          | none => false)) ∧
      getEvidenceWithFilters table { noFilters with hasError := .No } =
        some (table.filter (fun row =>
          match row.error with
          | some e => decide (e = [])
          | none => false)) ∧
      getEvidenceWithFilters exampleRows { noFilters with hasError := .Yes } =
        some [⟨some "boom".toList, some "2021-01-01".toList, [], [], 0⟩] := by
  have hparseYes : parseWhere (buildGetEvidenceWithFiltersQuery
      { noFilters with hasError := .Yes }).query = some [" error LIKE ? ".toList] := by decide
  have hparseNo : parseWhere (buildGetEvidenceWithFiltersQuery
      { noFilters with hasError := .No }).query = some [" error LIKE ? ".toList] := by decide
  have hvaluesYes : (buildGetEvidenceWithFiltersQuery
      { noFilters with hasError := .Yes }).values = [.string "_%".toList] := by decide
  have hvaluesNo : (buildGetEvidenceWithFiltersQuery
      { noFilters with hasError := .No }).values = [.string []] := by decide
  refine ⟨?_, ?_, by decide⟩
  · simp only [getEvidenceWithFilters, selectEvidence, hparseYes, hvaluesYes, Option.map_some']
    congr 1
    apply List.filter_congr
    intro row _
    rw [conditionsHold_like]
    cases row.error with
    | none => rfl
    | some e =>
      simp only [likeMatch_some_char]
      cases e <;> simp
  · simp only [getEvidenceWithFilters, selectEvidence, hparseNo, hvaluesNo, Option.map_some']
    congr 1
    apply List.filter_congr
    intro row _
    rw [conditionsHold_like]
    cases row.error with
    | none => rfl
    | some e =>
      simp only [likeMatch_empty]
      cases e <;> simp

/-! ## The statement separator and the failed history query -/

/-- Claim C11 at a failing input. The up section of `leadingSemicolonScript` has the two
lines `SELECT 1` and `;SELECT 2`, neither of which is a semicolon alone, yet
`extractMigrateUpContent` returns two statements: it splits at the newline followed by a
semicolon, inside the text, and the semicolon is dropped. A first line of the up section
that is a semicolon alone, on the other hand, separates nothing. -/
theorem extractMigrateUpContent_splits_at_leading_semicolon :
    upSectionLines (split leadingSemicolonScript "\n".toList)
        = ["SELECT 1".toList, ";SELECT 2".toList] ∧
      upContentOf leadingSemicolonScript = "SELECT 1\n;SELECT 2\n".toList ∧
      extractMigrateUpContent leadingSemicolonScript
        = ["SELECT 1".toList, "SELECT 2\n".toList] ∧
      extractMigrateUpContent "-- +migrate up\n;\nSELECT 1".toList
        = [";\nSELECT 1\n".toList] := by
  decide

/-- Claim C18 at the failing input. When the query that reads the history fails,
`getUnappliedMigrations` throws nothing: it returns every enumerated `.sql` file as the
work set, as for an empty history, and `migrateDB` goes on to apply that work set. -/
theorem getUnappliedMigrations_failed_query (allMigrations : List QString) :
    getUnappliedMigrations allMigrations none =
        .ok (allMigrations.filter (fun p => decide (right 4 p = sqlSuffix))) ∧
      getUnappliedMigrations allMigrations none = getUnappliedMigrations allMigrations (some []) ∧
      getUnappliedMigrations ["1.sql".toList] none = .ok ["1.sql".toList] := by
  refine ⟨?_, rfl, rfl⟩
  simp [getUnappliedMigrations, compareLoop_empty_history]

/-! ## Evidence tags -/

/-- With Qt's SQLite driver the DELETE of `setEvidenceTags` removes every row of the
evidence: the list bound to its first placeholder equals no `tag_id`. -/
theorem deleteTagsNotIn_driver (newTagIds : List Int) (evidenceID : Int)
    (table : List TagRow) :
    deleteTagsNotIn driverInList newTagIds evidenceID table
      = table.filter (fun row => row.evidenceId != evidenceID) := by
  unfold deleteTagsNotIn
  apply List.filter_congr
  intro row _
  simp only [driverInList, boundList, SqlValue.equalsInteger, Bool.not_false, Bool.true_and]
  rfl

theorem selectTagIds_append (evidenceID : Int) (a b : List TagRow) :
    selectTagIds evidenceID (a ++ b) = selectTagIds evidenceID a ++ selectTagIds evidenceID b := by
  simp [selectTagIds, List.filter_append]

/-- The identifiers stored for an evidence after an insert of rows for that evidence. -/
theorem selectTagIds_insertTags (allocId : List TagRow → Int) (evidenceID : Int)
    (items : List Dataset) :
    ∀ table : List TagRow, (∀ item ∈ items, item.evidenceID = evidenceID) →
      selectTagIds evidenceID (insertTags allocId items table)
        = selectTagIds evidenceID table ++ items.map (fun item => item.tagID) := by
  induction items with
  | nil => intro table _; simp [insertTags]
  | cons item rest ih =>
    intro table h
    have h1 : item.evidenceID = evidenceID := h item (List.mem_cons_self _ _)
    rw [insertTags, ih _ (fun i hi => h i (List.mem_cons_of_mem _ hi)), selectTagIds_append]
    simp [selectTagIds, h1]

/-- The identifiers that survive the DELETE for the evidence are in the list it was given,
when the database finds in the list only what the list holds. -/
theorem selectTagIds_deleteTagsNotIn (inList : List Int → Int → Bool)
    (hin : ∀ ids t, inList ids t = true → t ∈ ids)
    (newTagIds : List Int) (evidenceID : Int) (table : List TagRow) :
    ∀ t ∈ selectTagIds evidenceID (deleteTagsNotIn inList newTagIds evidenceID table),
      t ∈ newTagIds := by
  intro t ht
  simp only [selectTagIds, deleteTagsNotIn, List.mem_map, List.mem_filter] at ht
  obtain ⟨row, ⟨⟨_, hkeep⟩, hev⟩, rfl⟩ := ht
  apply hin newTagIds row.tagId
  cases hv : inList newTagIds row.tagId with
  | true => rfl
  | false => simp [hv, hev] at hkeep

/-- The identifiers stored for the evidence when `setEvidenceTags` ends: those that
survived its DELETE, then those it inserted. -/
theorem selectTagIds_setEvidenceTags (inList : List Int → Int → Bool)
    (allocId : List TagRow → Int) (newTags : List Tag) (evidenceID : Int)
    (table : List TagRow) :
    selectTagIds evidenceID (setEvidenceTags inList allocId newTags evidenceID table) =
      selectTagIds evidenceID
          (deleteTagsNotIn inList (newTags.map (fun tag => tag.serverTagId)) evidenceID table) ++
        (tagDataToInsert newTags evidenceID
          (selectTagIds evidenceID
            (deleteTagsNotIn inList (newTags.map (fun tag => tag.serverTagId)) evidenceID
              table))).map (fun item => item.tagID) := by
  simp only [setEvidenceTags]
  split
  · rw [selectTagIds_insertTags]
    intro item hitem
    simp only [tagDataToInsert, List.mem_map] at hitem
    obtain ⟨t, _, rfl⟩ := hitem
    rfl
  · rename_i hnil
    have hempty : tagDataToInsert newTags evidenceID
        (selectTagIds evidenceID
          (deleteTagsNotIn inList (newTags.map (fun tag => tag.serverTagId)) evidenceID table))
        = [] := by simpa using hnil
    rw [hempty]
    simp

/-- Claim C12. After `setEvidenceTags(target, e)` has run with each statement succeeding,
the server-assigned tag identifiers stored for evidence `e` are those of the target list:
an identifier is stored for `e` exactly when it is the `serverTagId` of a target tag. This
holds whenever the database, asked whether a `tag_id` is in the bound list, finds there
only identifiers the list holds, as it does with Qt's SQLite driver (`driverInList`). -/
theorem setEvidenceTags_stored_ids (inList : List Int → Int → Bool)
    (hin : ∀ ids t, inList ids t = true → t ∈ ids)
    (allocId : List TagRow → Int) (newTags : List Tag)
    (evidenceID : Int) (table : List TagRow) :
    ∀ tagId : Int,
      tagId ∈ selectTagIds evidenceID
          (setEvidenceTags inList allocId newTags evidenceID table) ↔
        tagId ∈ newTags.map (fun tag => tag.serverTagId) := by
  intro tagId
  have hcur := selectTagIds_deleteTagsNotIn inList hin
    (newTags.map (fun tag => tag.serverTagId)) evidenceID table
  rw [selectTagIds_setEvidenceTags]
  generalize selectTagIds evidenceID
    (deleteTagsNotIn inList (newTags.map (fun tag => tag.serverTagId)) evidenceID table)
    = currentTags at hcur ⊢
  constructor
  · intro h
    rcases List.mem_append.1 h with h | h
    · exact hcur tagId h
    · simp only [tagDataToInsert, List.map_map, List.mem_map, List.mem_filter] at h
      obtain ⟨t, ⟨ht, _⟩, rfl⟩ := h
      exact List.mem_map.2 ⟨t, ht, rfl⟩
  · intro h
    obtain ⟨t, ht, rfl⟩ := List.mem_map.1 h
    by_cases hc : t.serverTagId ∈ currentTags
    · exact List.mem_append_left _ hc
    · apply List.mem_append_right
      simp only [tagDataToInsert, List.map_map, List.mem_map, List.mem_filter]
      refine ⟨t, ⟨ht, ?_⟩, rfl⟩
      simpa [List.count_eq_zero] using hc

/-- Witness of C12, with Qt's SQLite driver: a stale tag 9 is replaced by the targets 7
and 8, and the row of another evidence stays. -/
theorem setEvidenceTags_stored_ids_witness :
    (7 ∈ selectTagIds 1 (setEvidenceTags driverInList (fun t => t.length)
          [⟨0, 7, "a".toList⟩, ⟨0, 8, "b".toList⟩] 1
          [⟨10, 1, 9, "c".toList⟩, ⟨11, 2, 9, "c".toList⟩]) ↔
        7 ∈ List.map (fun tag => tag.serverTagId)
          [(⟨0, 7, "a".toList⟩ : Tag), ⟨0, 8, "b".toList⟩]) ∧
      selectTagIds 1 (setEvidenceTags driverInList (fun t => t.length)
          [⟨0, 7, "a".toList⟩, ⟨0, 8, "b".toList⟩] 1
          [⟨10, 1, 9, "c".toList⟩, ⟨11, 2, 9, "c".toList⟩]) = [7, 8] :=
  ⟨setEvidenceTags_stored_ids driverInList (fun _ _ h => by simp [driverInList, boundList,
      SqlValue.equalsInteger] at h) (fun t => t.length)
      [⟨0, 7, "a".toList⟩, ⟨0, 8, "b".toList⟩] 1
      [⟨10, 1, 9, "c".toList⟩, ⟨11, 2, 9, "c".toList⟩] 7,
    by decide⟩

/-- Claim C13 at the failing input. On an empty table, `setEvidenceTags` with the one
target tag 7 for evidence 1 stores one row. A second call with the same target deletes
that row (nothing remains after its DELETE) and inserts a row for tag 7 again. -/
theorem setEvidenceTags_second_call_rewrites (allocId : List TagRow → Int) :
    setEvidenceTags driverInList allocId [⟨0, 7, "a".toList⟩] 1 []
        = [⟨allocId [], 1, 7, "a".toList⟩] ∧
      deleteTagsNotIn driverInList [7] 1 [⟨allocId [], 1, 7, "a".toList⟩] = [] ∧
      tagDataToInsert [⟨0, 7, "a".toList⟩] 1
          (selectTagIds 1 (deleteTagsNotIn driverInList [7] 1
            [⟨allocId [], 1, 7, "a".toList⟩]))
        = [⟨1, 7, "a".toList⟩] := by
  refine ⟨rfl, rfl, rfl⟩

/-- Claim C14 at the failing input. The stored row with local identifier 10 carries tag 7
for evidence 1, and tag 7 is in the target list; `setEvidenceTags` deletes the row all the
same and inserts a new row for tag 7, whose local identifier is the one the database
hands out for an insert into the emptied table. -/
theorem setEvidenceTags_rewrites_kept_tag (allocId : List TagRow → Int) :
    deleteTagsNotIn driverInList [7] 1 [⟨10, 1, 7, "a".toList⟩] = [] ∧
      tagDataToInsert [⟨0, 7, "a".toList⟩] 1
          (selectTagIds 1 (deleteTagsNotIn driverInList [7] 1 [⟨10, 1, 7, "a".toList⟩]))
        = [⟨1, 7, "a".toList⟩] ∧
      setEvidenceTags driverInList allocId [⟨0, 7, "a".toList⟩] 1 [⟨10, 1, 7, "a".toList⟩]
        = [⟨allocId [], 1, 7, "a".toList⟩] := by
  refine ⟨rfl, rfl, rfl⟩

/-! ## Servers -/

/-- Counterexample to C15: the name is one space and the identifier is `u`, so neither is
empty, and `createServer` rejects the server. -/
theorem createServer_rejects_blank_name :
    (" ".toList ≠ [] ∧ "u".toList ≠ []) ∧
      createServer ⟨"u".toList, " ".toList, [], [], [], none⟩
        = .error (.badDBData "New servers require a non-empty name and uuid".toList) := by
  exact ⟨by decide, rfl⟩

/-- Claim C15, amended. `createServer` is rejected with the validation error, before any
statement is issued, exactly when the name or the identifier is empty once the white
space at its ends is removed; otherwise its INSERT is issued with the identifier, name,
access key, secret key and host path bound in that order. -/
theorem createServer_validation (newServer : Server) :
    ((trimmed newServer.serverName = [] ∨ trimmed newServer.serverUuid = []) →
      createServer newServer
        = .error (.badDBData "New servers require a non-empty name and uuid".toList)) ∧
    (¬ (trimmed newServer.serverName = [] ∨ trimmed newServer.serverUuid = []) →
      createServer newServer
        = .ok ⟨insertServerStmt,
            [.string newServer.serverUuid, .string newServer.serverName,
              .string newServer.accessKey, .string newServer.secretKey,
              .string newServer.hostPath]⟩) := by
  constructor
  · intro h
    have : ((trimmed newServer.serverName).isEmpty || (trimmed newServer.serverUuid).isEmpty)
        = true := by
      rcases h with h | h <;> simp [h]
    simp [createServer, this]
  · intro h
    have h1 : ¬ trimmed newServer.serverName = [] := fun e => h (Or.inl e)
    have h2 : ¬ trimmed newServer.serverUuid = [] := fun e => h (Or.inr e)
    have : ((trimmed newServer.serverName).isEmpty || (trimmed newServer.serverUuid).isEmpty)
        = false := by
      simp [List.isEmpty_iff, h1, h2]
    simp [createServer, this]

/-- Witness of C15: a blank identifier is rejected, a server with name and identifier is
accepted. -/
theorem createServer_validation_witness :
    createServer ⟨"  ".toList, "n".toList, [], [], [], none⟩
        = .error (.badDBData "New servers require a non-empty name and uuid".toList) ∧
      createServer ⟨"u".toList, "n".toList, "a".toList, "s".toList, "h".toList, none⟩
        = .ok ⟨insertServerStmt,
            [.string "u".toList, .string "n".toList, .string "a".toList, .string "s".toList,
              .string "h".toList]⟩ :=
  ⟨(createServer_validation ⟨"  ".toList, "n".toList, [], [], [], none⟩).1
      (Or.inr (by decide)),
    (createServer_validation
      ⟨"u".toList, "n".toList, "a".toList, "s".toList, "h".toList, none⟩).2 (by decide)⟩

theorem filter_other_servers (serverUuid : QString) (servers : List Server) :
    (servers.map (fun row =>
        if row.serverUuid = serverUuid then
          (⟨row.serverUuid, row.serverName, row.accessKey, row.secretKey, row.hostPath, none⟩ :
            Server)
        else row)).filter (fun row => row.serverUuid ≠ serverUuid)
      = servers.filter (fun row => row.serverUuid ≠ serverUuid) := by
  induction servers with
  | nil => rfl
  | cons r rest ih =>
    by_cases h : r.serverUuid = serverUuid
    · simpa [List.filter_cons, h] using ih
    · simpa [List.filter_cons, h] using ih

/-- Claim C16. `deleteServer(u)` followed by `restoreServer(u)` leaves the table with
every row of identifier `u` carrying an absent `deleted_at` and all its other fields as
they were, and with every other row as it was. -/
theorem restoreServer_deleteServer (now serverUuid : QString) (servers : List Server) :
    restoreServer serverUuid (deleteServer now serverUuid servers) =
        servers.map (fun row =>
          if row.serverUuid = serverUuid then
            ⟨row.serverUuid, row.serverName, row.accessKey, row.secretKey, row.hostPath, none⟩
          else row) ∧
      (∀ row ∈ restoreServer serverUuid (deleteServer now serverUuid servers),
        row.serverUuid = serverUuid → row.deletedAt = none) ∧
      (restoreServer serverUuid (deleteServer now serverUuid servers)).filter
          (fun row => row.serverUuid ≠ serverUuid)
        = servers.filter (fun row => row.serverUuid ≠ serverUuid) := by
  have hmap : restoreServer serverUuid (deleteServer now serverUuid servers) =
      servers.map (fun row =>
        if row.serverUuid = serverUuid then
          ⟨row.serverUuid, row.serverName, row.accessKey, row.secretKey, row.hostPath, none⟩
        else row) := by
    simp only [restoreServer, deleteServer, List.map_map]
    apply List.map_congr_left
    intro row _
    by_cases h : row.serverUuid = serverUuid <;> simp [h]
  refine ⟨hmap, ?_, ?_⟩
  · rw [hmap]
    intro row hrow hu
    obtain ⟨r, _, rfl⟩ := List.mem_map.1 hrow
    by_cases h : r.serverUuid = serverUuid
    · simp [h]
    · simp [h] at hu
  · rw [hmap]
    exact filter_other_servers serverUuid servers

/-! ## System migrations -/

/-- Counterexample to C17: the name `m` is recorded, so `hasAppliedSystemMigration` is
true, and `applySystemMigration` inserts a second row for it; applying `m` twice to the
empty table leaves two rows, applying it once leaves one. -/
theorem applySystemMigration_inserts_again :
    hasAppliedSystemMigration ["m".toList] "m".toList = true ∧
      applySystemMigration ["m".toList] "m".toList = ["m".toList, "m".toList] ∧
      applySystemMigration (applySystemMigration [] "m".toList) "m".toList
        ≠ applySystemMigration [] "m".toList := by
  decide

/-- Claim C17, amended. `applySystemMigration(n)` performs no check: it inserts one row
for `n` whatever the table holds, and `hasAppliedSystemMigration(n)` is true afterwards.
The check-then-insert of a caller, which applies `n` only when
`hasAppliedSystemMigration(n)` is false, is idempotent: run when `n` is recorded it
inserts no row, so running it twice leaves the table it leaves when run once. -/
theorem applySystemMigration_check_then_insert (systemMigrations : List QString)
    (n : QString) :
    applySystemMigration systemMigrations n = systemMigrations ++ [n] ∧
      hasAppliedSystemMigration (applySystemMigration systemMigrations n) n = true ∧
      hasAppliedSystemMigration (applySystemMigrationOnce systemMigrations n) n = true ∧
      (hasAppliedSystemMigration systemMigrations n = true →
        applySystemMigrationOnce systemMigrations n = systemMigrations) ∧
      applySystemMigrationOnce (applySystemMigrationOnce systemMigrations n) n
        = applySystemMigrationOnce systemMigrations n := by
  have happlied : hasAppliedSystemMigration (applySystemMigration systemMigrations n) n
      = true := by
    simp [hasAppliedSystemMigration, applySystemMigration]
  have honce : hasAppliedSystemMigration (applySystemMigrationOnce systemMigrations n) n
      = true := by
    unfold applySystemMigrationOnce
    by_cases h : hasAppliedSystemMigration systemMigrations n = true
    · simp [h]
    · simp [h, happlied]
  refine ⟨rfl, happlied, honce, ?_, ?_⟩
  · intro h
    simp [applySystemMigrationOnce, h]
  · generalize applySystemMigrationOnce systemMigrations n = once at honce ⊢
    simp [applySystemMigrationOnce, honce]

/-- Witness of C17: with `m` recorded, the check-then-insert inserts nothing. -/
theorem applySystemMigration_check_then_insert_witness :
    applySystemMigrationOnce ["m".toList] "m".toList = ["m".toList] :=
  (applySystemMigration_check_then_insert ["m".toList] "m".toList).2.2.2.1 (by decide)

/-! ## Tag streams -/

theorem toInt32_of_small (n : Nat) (h : n < 2147483648) : toInt32 (n : Int) = n := by
  unfold toInt32
  omega

theorem writeTag_foldl (v : List Tag) :
    ∀ out : QDataStream, v.foldl writeTag out
      = out ++ v.flatMap (fun t => [.string t.tagName, .int64 t.id, .int64 t.serverTagId]) := by
  induction v with
  | nil => intro out; simp
  | cons t rest ih => intro out; simp [ih, writeTag, List.append_assoc]

/-- The read loop gives back the tags written, in order, after the tags it started with. -/
theorem readTagsLoop_written (v : List Tag) :
    ∀ (acc : List Tag) (rest : QDataStream),
      readTagsLoop v.length
          (v.flatMap (fun t => [.string t.tagName, .int64 t.id, .int64 t.serverTagId]) ++ rest)
          acc
        = some (acc ++ v, rest) := by
  induction v with
  | nil => intro acc rest; simp [readTagsLoop]
  | cons t ts ih =>
    intro acc rest
    have hread : readTag
        ((t :: ts).flatMap (fun t => [.string t.tagName, .int64 t.id, .int64 t.serverTagId])
          ++ rest)
        = some (t, ts.flatMap (fun t => [.string t.tagName, .int64 t.id, .int64 t.serverTagId])
            ++ rest) := by
      simp [readTag]
    rw [List.length_cons, readTagsLoop, hread]
    simp only
    rw [ih]
    simp

/-- Claim C19. For a vector of tags shorter than 2^31, reading with `operator>>` into an
empty vector from the stream `operator<<` wrote gives back the vector: the same tags in
the same order, each with its `tagName`, `id` and `serverTagId`, and the stream is read
to its end. -/
theorem readTags_writeTags (v : List Tag) (h : v.length < 2147483648) :
    readTags (writeTags [] v) [] = some (v, []) := by
  have hw : writeTags [] v = StreamItem.int32 (v.length : Int) ::
      (v.flatMap (fun t => [.string t.tagName, .int64 t.id, .int64 t.serverTagId]) ++ []) := by
    simp [writeTags, writeTag_foldl, toInt32_of_small v.length h]
  rw [hw, readTags]
  have hneg : ¬ ((v.length : Int) < 0) := by omega
  simp only [hneg, if_false, Int.toNat_ofNat]
  rw [readTagsLoop_written]
  simp

/-- Witness of C19: a vector of two tags. -/
theorem readTags_writeTags_witness :
    readTags (writeTags [] [⟨1, 7, "a".toList⟩, ⟨2, 8, "b".toList⟩]) []
      = some ([⟨1, 7, "a".toList⟩, ⟨2, 8, "b".toList⟩], []) :=
  readTags_writeTags [⟨1, 7, "a".toList⟩, ⟨2, 8, "b".toList⟩] (by decide)

end Ashirt
